import Mathlib

/-!
# audio-to-srt: time codes, subtitle parsing and writing, backend selection

A shallow embedding of `src/main.go` and a verification of its specification.

Conventions of the embedding:

* a Go `string` holding valid UTF-8 is the list of its code points (`GoString`);
* `int`, `int64` and `time.Duration` are `Int` (64-bit, wrapped where the code
  can overflow);
* `float64` is an exact model of IEEE-754 binary64 with round-to-nearest-even
  (`F64`): every finite value is an integer multiple of `2^-1074`, and every
  operation rounds the exact result;
* files are their contents: `parseSRTFile` takes the content of the file it
  opens, `writeSRTFile` returns the content of the file it writes;
* the probes of the environment (`os.Stat`, `exec.LookPath`, the check that
  Python can load `whisper`) are the fields of `Env`.
-/

namespace AudioToSrt

/-- A Go string, as the list of its code points. -/
abbrev GoString := List Char

/-! ## IEEE-754 binary64 -/

/-- A `float64`. The finite value `fin neg k` is `± k * 2^-1074`; both zeros are
kept apart. -/
inductive F64 where
  | fin (neg : Bool) (k : Nat)
  | inf (neg : Bool)
  | nan
deriving DecidableEq

namespace F64

/-- How many units `2^-1074` make `1.0`. -/
@[irreducible] def one : Nat := 2 ^ 1074

/-- Bit length with fuel: `0` for `0`, else one more than the bit length of `n / 2`. -/
def bitLenAux : Nat → Nat → Nat
  | 0, _ => 0
  | fuel + 1, n => if n = 0 then 0 else bitLenAux fuel (n / 2) + 1

/-- Number of binary digits of `n`. -/
def bitLen (n : Nat) : Nat := bitLenAux n n

/-- The integer nearest to `p / q`, ties going to the even one. -/
def roundHalfEven (p q : Nat) : Nat :=
  let n := p / q
  let r := p % q
  if 2 * r < q then n
  else if q < 2 * r then n + 1
  else if n % 2 = 0 then n else n + 1

/-- Round the non-negative rational `p / q`, counted in units of `2^-1074`, to
the nearest value with a 53-bit significand (ties to even). Below `2^53` units
(the subnormal range and the first binade) the grid is the integers. -/
def roundUnits (p q : Nat) : Nat :=
  let s := bitLen (p / q) - 53
  roundHalfEven p (q * 2 ^ s) * 2 ^ s

/-- The largest finite binary64, `(2^53 - 1) * 2^971`, in units. -/
@[irreducible] def maxFinite : Nat := (2 ^ 53 - 1) * 2 ^ 2045

/-- The float64 with the given sign nearest to `p / q` units; overflow gives an
infinity. -/
def pack (neg : Bool) (p q : Nat) : F64 :=
  let k := roundUnits p q
  if maxFinite < k then inf neg else fin neg k

/-- Go `float64(n)` for an integer `n`. -/
def ofInt (n : Int) : F64 := pack (decide (n < 0)) (n.natAbs * one) 1

/-- The float64 a decimal literal `num / den` denotes (`7.2` is `ofDecimal 72 10`). -/
def ofDecimal (num den : Nat) : F64 := pack false (num * one) den

/-- Go `x + y` on float64. -/
def add : F64 → F64 → F64
  | fin s a, fin t b =>
    if s = t then pack s (a + b) 1
    else if a = b then fin false 0
    else if b < a then pack s (a - b) 1
    else pack t (b - a) 1
  | nan, _ => nan
  | _, nan => nan
  | inf s, inf t => if s = t then inf s else nan
  | inf s, fin _ _ => inf s
  | fin _ _, inf t => inf t

/-- Go `x * y` on float64. -/
def mul : F64 → F64 → F64
  | fin s a, fin t b => pack (s != t) (a * b) one
  | nan, _ => nan
  | _, nan => nan
  | inf s, inf t => inf (s != t)
  | inf s, fin t b => if b = 0 then nan else inf (s != t)
  | fin s a, inf t => if a = 0 then nan else inf (s != t)

/-- Go `x / y` on float64. -/
def div : F64 → F64 → F64
  | fin s a, fin t b =>
    if b = 0 then (if a = 0 then nan else inf (s != t))
    else pack (s != t) (a * one) b
  | nan, _ => nan
  | _, nan => nan
  | inf _, inf _ => nan
  | inf s, fin t _ => inf (s != t)
  | fin s _, inf t => fin (s != t) 0

/-- Wrap an integer into the int64 range. -/
def wrapInt64 (z : Int) : Int := (z + 2 ^ 63) % 2 ^ 64 - 2 ^ 63

/-- Go `int64(x)` (and `int(x)` on a 64-bit platform) for a float64 `x`: the
value truncated toward zero. When that is not an int64 (also for infinities and
NaN) the Go specification leaves the result to the implementation: it is
`impl x`. -/
def toInt64 (impl : F64 → Int) (x : F64) : Int :=
  match x with
  | fin s k =>
    let t : Int := ((k / one : Nat) : Int)
    let v : Int := if s then -t else t
    if -(2 ^ 63) ≤ v ∧ v < 2 ^ 63 then v else wrapInt64 (impl x)
  | _ => wrapInt64 (impl x)

/-- The truncation of `x` toward zero is an int64, so that `toInt64` does not
depend on the implementation. -/
def inInt64 : F64 → Bool
  | fin s k =>
    let t : Int := ((k / one : Nat) : Int)
    let v : Int := if s then -t else t
    decide (-(2 ^ 63) ≤ v ∧ v < 2 ^ 63)
  | _ => false

/-- The conversion of a float64 that is no int64 on amd64: the instruction
`CVTTSD2SQ` gives the smallest int64. -/
def amd64 : F64 → Int := fun _ => -(2 ^ 63)

/-- A number of units with a significand of at most 53 bits: `m * 2^t` with
`m ≤ 2^53`. Up to `maxFinite` these are the magnitudes of the finite float64. -/
def OnGrid (g : Nat) : Prop := ∃ m t : Nat, m ≤ 2 ^ 53 ∧ g = m * 2 ^ t

/-- The non-negative finite float64 values. -/
def IsNonnegFinite : F64 → Prop
  | fin s _ => s = false
  | _ => False

/-- The finite float64 values `x` with `0 ≤ x < bound` seconds; the zero of
either sign is one of them. -/
def IsNonnegBelow (bound : Nat) : F64 → Prop
  | fin s k => (s = false ∨ k = 0) ∧ OnGrid k ∧ k < bound * one
  | _ => False

/-- The magnitude of a finite float64 truncated to a whole number (of seconds). -/
def wholePart : F64 → Nat
  | fin _ k => k / one
  | _ => 0

/-- The exact value of a finite float64, in units of `2^-1074`. -/
def units : F64 → Int
  | fin s k => if s then -(k : Int) else k
  | _ => 0

/-- The exact value of a finite float64, in seconds. -/
def toRat (x : F64) : ℚ := (units x : ℚ) / (one : ℚ)

end F64

/-! ## Strings: `strings`, `strconv`, `fmt`, `path/filepath` -/

/-- Go `unicode.IsSpace`. -/
def isSpace (c : Char) : Bool :=
  let n := c.toNat
  n == 9 || n == 10 || n == 11 || n == 12 || n == 13 || n == 32 || n == 0x85 || n == 0xA0
    || n == 0x1680 || (0x2000 ≤ n && n ≤ 0x200A) || n == 0x2028 || n == 0x2029
    || n == 0x202F || n == 0x205F || n == 0x3000

/-- Go `strings.TrimSpace`: drop the leading and the trailing white space. -/
def TrimSpace (s : GoString) : GoString :=
  (s.dropWhile isSpace).rdropWhile isSpace

/-- Go `strings.TrimSuffix`. -/
def TrimSuffix (s suffix : GoString) : GoString :=
  if suffix.isSuffixOf s then s.take (s.length - suffix.length) else s

/-- Go `filepath.Base` with `/` as the separator. -/
def Base (path : GoString) : GoString :=
  if path = [] then ['.']
  else
    let stripped := path.rdropWhile (fun c => c == '/')
    let last := stripped.rtakeWhile (fun c => c != '/')
    if last = [] then ['/'] else last

/-- Go `filepath.Ext` with `/` as the separator: the part of the last path
element from its last dot on, empty when it has no dot. -/
def Ext (path : GoString) : GoString :=
  let last := path.rtakeWhile (fun c => c != '/')
  let ext := last.rtakeWhile (fun c => c != '.')
  if ext.length = last.length then [] else '.' :: ext

/-- An ASCII decimal digit, what `\d` matches in a Go regular expression. -/
def isDigit (c : Char) : Bool := 48 ≤ c.toNat && c.toNat ≤ 57

/-- The value of a decimal digit. -/
def digitVal (c : Char) : Nat := c.toNat - 48

/-- The character of a decimal digit. -/
def digitChar (n : Nat) : Char := Char.ofNat (48 + n)

/-- The value of a run of decimal digits continuing `acc`, with no bound on it;
`none` when a character is not a digit. Below `2^64` it is what `ParseUint`
returns. -/
def digitsValue : List Char → Nat → Option Nat
  | [], acc => some acc
  | c :: cs, acc => if isDigit c then digitsValue cs (acc * 10 + digitVal c) else none

/-- Go `strconv.ParseUint(s, 10, 64)` continuing from `n`, character by
character as the library reads: `none` on a syntax error (a character that is
no digit), and the largest uint64 as soon as the digits read so far pass it (a
range error, returned at once, whatever follows in the string). -/
def ParseUint : List Char → Nat → Option Nat
  | [], n => some n
  | c :: cs, n =>
    if isDigit c then
      if 2 ^ 64 ≤ n * 10 + digitVal c then some (2 ^ 64 - 1)
      else ParseUint cs (n * 10 + digitVal c)
    else none

/-- Go `strconv.Atoi` with its error dropped (`n, _ := strconv.Atoi(s)`), for a
64-bit `int`: `0` on a syntax error, the nearest bound on a range error. -/
def Atoi (s : GoString) : Int :=
  match s with
  | [] => 0
  | c :: cs =>
    let negative := c == '-'
    let body := if c == '-' || c == '+' then cs else s
    if body = [] then 0
    else
      match ParseUint body 0 with
      | none => 0
      | some n =>
        if negative then (if 2 ^ 63 < n then -(2 ^ 63) else -(n : Int))
        else (if 2 ^ 63 ≤ n then 2 ^ 63 - 1 else (n : Int))

/-- Decimal digits of `n`, most significant first, with fuel. -/
def natDigits : Nat → Nat → List Char
  | 0, _ => []
  | fuel + 1, n =>
    if n < 10 then [digitChar n] else natDigits fuel (n / 10) ++ [digitChar (n % 10)]

/-- The decimal numeral of a natural number. -/
def decimal (n : Nat) : List Char := natDigits (n + 1) n

/-- Go `fmt` verb `%0wd` (and `%d` for `w = 0`): at least `w` characters, the
sign first and zeros after it. -/
def fmtInt (w : Nat) (v : Int) : GoString :=
  if v < 0 then
    let ds := decimal v.natAbs
    '-' :: (List.replicate (w - 1 - ds.length) '0' ++ ds)
  else
    let ds := decimal v.natAbs
    List.replicate (w - ds.length) '0' ++ ds

/-! ## The data model -/

/-- Go `Segment`: one recognised span of speech. -/
structure Segment where
  Start : F64
  End : F64
  Text : GoString
deriving DecidableEq

/-- Go `SRTEntry`: the unit written to the subtitle file; `Start` and `End` are
`time.Duration` values, in nanoseconds. -/
structure SRTEntry where
  Index : Int
  Start : Int
  End : Int
  Text : GoString
deriving DecidableEq

/-! ## The time codec -/

/-- Go `time.Duration.Seconds`: `float64(d / Second) + float64(d % Second) / 1e9`. -/
def Seconds (d : Int) : F64 :=
  F64.add (F64.ofInt (d.tdiv 1000000000))
    (F64.div (F64.ofInt (d.tmod 1000000000)) (F64.ofInt 1000000000))

/-- Go `formatTime`. -/
def formatTime (impl : F64 → Int) (d : Int) : GoString :=
  let totalSeconds := F64.toInt64 impl (Seconds d)
  let hours := totalSeconds.tdiv 3600
  let minutes := (totalSeconds.tmod 3600).tdiv 60
  let seconds := totalSeconds.tmod 60
  let milliseconds := (d.tdiv 1000000).tmod 1000
  fmtInt 2 hours ++ ':' :: fmtInt 2 minutes ++ ':' :: fmtInt 2 seconds
    ++ ',' :: fmtInt 3 milliseconds

/-- Go `parseTimeToSeconds`. -/
def parseTimeToSeconds (hours minutes seconds milliseconds : GoString) : F64 :=
  let h := Atoi hours
  let m := Atoi minutes
  let s := Atoi seconds
  let ms := Atoi milliseconds
  F64.add (F64.ofInt (F64.wrapInt64 (h * 3600 + m * 60 + s)))
    (F64.div (F64.ofInt ms) (F64.ofInt 1000))

/-- The conversion in `generateSRT`: `time.Duration(x * float64(time.Second))`. -/
def toDuration (impl : F64 → Int) (x : F64) : Int :=
  F64.toInt64 impl (F64.mul x (F64.ofInt 1000000000))

/-- Split a time code at its two colons and its comma into the four fields. -/
def splitCode (code : GoString) : GoString × GoString × GoString × GoString :=
  let h := code.takeWhile (fun c => c != ':')
  let r1 := (code.dropWhile (fun c => c != ':')).drop 1
  let m := r1.takeWhile (fun c => c != ':')
  let r2 := (r1.dropWhile (fun c => c != ':')).drop 1
  let s := r2.takeWhile (fun c => c != ',')
  let ms := (r2.dropWhile (fun c => c != ',')).drop 1
  (h, m, s, ms)

/-- Decode a time code: its four fields passed to `parseTimeToSeconds`. -/
def decodeCode (code : GoString) : F64 :=
  let f := splitCode code
  parseTimeToSeconds f.1 f.2.1 f.2.2.1 f.2.2.2

/-! ## Reading a subtitle file -/

/-- One item of the fixed-length pattern of `timeRegex`: `\d` or a literal. -/
inductive PatItem where
  | digit
  | lit (c : Char)
deriving DecidableEq

/-- The text starts with a match of the pattern. -/
def matchesAt : List PatItem → List Char → Bool
  | [], _ => true
  | _ :: _, [] => false
  | PatItem.digit :: ps, c :: cs => isDigit c && matchesAt ps cs
  | PatItem.lit a :: ps, c :: cs => (c == a) && matchesAt ps cs

/-- The pattern `\d{2}:\d{2}:\d{2},\d{3}` of one time code. -/
def stampPattern : List PatItem :=
  [PatItem.digit, PatItem.digit, PatItem.lit ':', PatItem.digit, PatItem.digit, PatItem.lit ':',
   PatItem.digit, PatItem.digit, PatItem.lit ',', PatItem.digit, PatItem.digit, PatItem.digit]

/-- Go `timeRegex`: two time codes around ` --> `; every match is 29 characters long. -/
def timeRegex : List PatItem :=
  stampPattern ++ [PatItem.lit ' ', PatItem.lit '-', PatItem.lit '-', PatItem.lit '>',
    PatItem.lit ' '] ++ stampPattern

/-- The leftmost match of `timeRegex` in a line (`timeRegex.MatchString` holds
exactly when there is one). -/
def findMatch : List Char → Option (List Char)
  | [] => none
  | c :: cs => if matchesAt timeRegex (c :: cs) then some ((c :: cs).take 29) else findMatch cs

/-- The characters of `l` from position `i` up to position `j`. -/
def slice (l : List Char) (i j : Nat) : List Char := (l.drop i).take (j - i)

/-- Go `timeRegex.FindStringSubmatch`: the leftmost match and its eight groups
(always nine strings, so the test `len(matches) == 9` holds at every match). -/
def FindStringSubmatch (line : GoString) : Option (List GoString) :=
  (findMatch line).map fun t =>
    [t, slice t 0 2, slice t 3 5, slice t 6 8, slice t 9 12,
     slice t 17 19, slice t 20 22, slice t 23 25, slice t 26 29]

/-- Length of a string in bytes of UTF-8. -/
def utf8Len (s : GoString) : Nat := (s.map Char.utf8Size).sum

/-- Go `bufio.MaxScanTokenSize`: a line of this many bytes or more does not fit
the buffer of a `bufio.Scanner`. -/
def MaxScanTokenSize : Nat := 65536

/-- Drop one trailing carriage return, as `bufio.ScanLines` does. -/
def dropCR (line : List Char) : List Char :=
  if line.getLast? = some '\r' then line.dropLast else line

/-- The lines a `bufio.Scanner` with the default split function and buffer
yields for a content, `cur` being the part of the current line read so far, and
whether it stopped on `bufio.ErrTooLong`. A line ends at a line feed or at the
end of the content (an empty last line is no line); the scanner stops at the
first line of `MaxScanTokenSize` bytes or more. (A call of `Scan` after the
one that stopped returns the buffered start of the long line once, and every
later call fails. In `parseSRTFile` this happens when the call that stopped is
the one reading a text line: the outer call then gets that piece, and the
call for its text line fails, so that no Segment is made after the stop and the
lines before the long one are all that counts.) -/
def scanFrom : List Char → List Char → List GoString × Bool
  | [], cur =>
    if cur = [] then ([], false)
    else if MaxScanTokenSize ≤ utf8Len cur then ([], true)
    else ([dropCR cur], false)
  | c :: rest, cur =>
    if c = '\n' then
      if MaxScanTokenSize ≤ utf8Len cur then ([], true)
      else ((dropCR cur) :: (scanFrom rest []).1, (scanFrom rest []).2)
    else scanFrom rest (cur ++ [c])

/-- The lines of a content, as the scanner of `parseSRTFile` yields them. -/
def scanLines (content : GoString) : List GoString × Bool := scanFrom content []

/-- The loop of `parseSRTFile` over the lines the scanner yields: a line with a
match of `timeRegex` takes the next line as its text; without a next line it
yields nothing. -/
def parseLines : List GoString → List Segment
  | [] => []
  | l :: rest =>
    match FindStringSubmatch (TrimSpace l) with
    | some [_, h1, m1, s1, f1, h2, m2, s2, f2] =>
      match rest with
      | [] => []
      | t :: rest2 =>
        { Start := parseTimeToSeconds h1 m1 s1 f1
          End := parseTimeToSeconds h2 m2 s2 f2
          Text := TrimSpace t } :: parseLines rest2
    | _ => parseLines rest

/-- The errors of `parseSRTFile`. -/
inductive ParseError where
  | openFailed
  | tooLong
deriving DecidableEq

/-- Go `parseSRTFile` on the content of the file (`none` when it cannot be
opened): the Segments and the error it returns. -/
def parseSRTFile (file : Option GoString) : List Segment × Option ParseError :=
  match file with
  | none => ([], some ParseError.openFailed)
  | some content =>
    (parseLines (scanLines content).1,
      if (scanLines content).2 then some ParseError.tooLong else none)

/-! ## Writing a subtitle file -/

/-- The block `writeSRTFile` prints for one entry, format
`"%d\n%s --> %s\n%s\n\n"`. -/
def entryBlock (impl : F64 → Int) (e : SRTEntry) : GoString :=
  fmtInt 0 e.Index ++ '\n' :: formatTime impl e.Start ++ " --> ".toList
    ++ formatTime impl e.End ++ '\n' :: e.Text ++ ['\n', '\n']

/-- Go `writeSRTFile`: the content of the file written. -/
def writeSRTFile (impl : F64 → Int) : List SRTEntry → GoString
  | [] => []
  | e :: es => entryBlock impl e ++ writeSRTFile impl es

/-- Block `k` of the output as the specification words it: the decimal index
`k`, a line feed, the two time codes around ` --> `, a line feed, the text
stripped of surrounding white space, a line feed and a blank line. -/
def specBlock (impl : F64 → Int) (k : Nat) (seg : Segment) : GoString :=
  decimal k ++ ['\n'] ++ formatTime impl (toDuration impl seg.Start) ++ " --> ".toList
    ++ formatTime impl (toDuration impl seg.End) ++ ['\n'] ++ TrimSpace seg.Text ++ ['\n']
    ++ ['\n']

/-- The concatenation of the blocks of the Segments, numbered from `i + 1` on. -/
def specBlocksFrom (impl : F64 → Int) : Nat → List Segment → GoString
  | _, [] => []
  | i, seg :: rest => specBlock impl (i + 1) seg ++ specBlocksFrom impl (i + 1) rest

/-- The loop of `generateSRT`: the entries of the Segments from index `i` on. -/
def entriesFrom (impl : F64 → Int) : Nat → List Segment → List SRTEntry
  | _, [] => []
  | i, seg :: rest =>
    { Index := (i : Int) + 1
      Start := toDuration impl seg.Start
      End := toDuration impl seg.End
      Text := TrimSpace seg.Text } :: entriesFrom impl (i + 1) rest

/-- Go `generateSRT`: the content of the file written. -/
def generateSRT (impl : F64 → Int) (segments : List Segment) : GoString :=
  writeSRTFile impl (entriesFrom impl 0 segments)

/-! ## Transcription: demo mode and backend selection -/

/-- Go `generateDemoTranscription`. -/
def generateDemoTranscription (audioFile : GoString) : List Segment :=
  let audioName := TrimSuffix (Base audioFile) (Ext audioFile)
  [ { Start := F64.ofDecimal 0 1, End := F64.ofDecimal 35 10,
      Text := "欢迎收听 ".toList ++ audioName ++ " 音频文件的转录结果。".toList },
    { Start := F64.ofDecimal 35 10, End := F64.ofDecimal 72 10,
      Text := "这是一个演示模式生成的字幕文件。".toList },
    { Start := F64.ofDecimal 72 10, End := F64.ofDecimal 118 10,
      Text := "在实际使用中，这里会显示真正的语音识别结果。".toList },
    { Start := F64.ofDecimal 118 10, End := F64.ofDecimal 153 10,
      Text := "请安装whisper.cpp或Python whisper来获得真实的转录功能。".toList },
    { Start := F64.ofDecimal 153 10, End := F64.ofDecimal 18 1,
      Text := "谢谢使用我们的音频转字幕工具！".toList } ]

/-- What the probes of the environment answer. -/
structure Env where
  /-- `os.Stat(path)` returns no error. -/
  stat : GoString → Bool
  /-- `exec.LookPath(name)`: the path found, `none` on an error. -/
  lookPath : GoString → Option GoString
  /-- `exec.Command(python, "-c", "import whisper; ...").Run()` returns no error. -/
  importsWhisper : GoString → Bool

/-- The loop `for _, path := range candidates { if ok(path) { return path } }`:
the first candidate that passes the check, if any. -/
def firstPassing (ok : GoString → Bool) : List GoString → Option GoString
  | [] => none
  | p :: ps => if ok p then some p else firstPassing ok ps

/-- The `localPaths` of `findWhisperExecutable`. -/
def localPaths : List GoString :=
  ["./whisper.cpp/build/bin/whisper-cli".toList, "./whisper.cpp/build/bin/main".toList,
   "./whisper.cpp/main".toList]

/-- The `systemPaths` of `findWhisperExecutable`. -/
def systemPaths : List GoString :=
  ["whisper.cpp".toList, "whisper-cli".toList, "/usr/local/bin/whisper.cpp".toList,
   "/opt/homebrew/bin/whisper.cpp".toList]

/-- The `possiblePaths` of `findPython`. -/
def possiblePaths : List GoString := ["python3".toList, "python".toList]

/-- Go `findWhisperExecutable`. -/
def findWhisperExecutable (env : Env) : GoString :=
  match firstPassing env.stat localPaths with
  | some path => path
  | none =>
    match firstPassing (fun p => (env.lookPath p).isSome) systemPaths with
    | some path => path
    | none => []

/-- Go `findSystemWhisper`. -/
def findSystemWhisper (env : Env) : GoString :=
  match env.lookPath "whisper".toList with
  | some path => path
  | none => []

/-- Go `findPython`. -/
def findPython (env : Env) : GoString :=
  match firstPassing (fun p => (env.lookPath p).isSome && env.importsWhisper p)
      possiblePaths with
  | some path => path
  | none => []

/-- What `transcribeAudio` does: returns the demo Segments, hands the audio file
to one of the three adapters with the path its probe found, or fails. -/
inductive Outcome where
  | segments (segs : List Segment)
  | whisperCpp (audioFile whisperPath : GoString)
  | systemWhisper (audioFile whisperPath : GoString)
  | pythonWhisper (audioFile pythonPath : GoString)
  | noBackendError
deriving DecidableEq

/-- Go `transcribeAudio`, `demoMode` being the global flag. -/
def transcribeAudio (demoMode : Bool) (env : Env) (audioFile : GoString) : Outcome :=
  if demoMode then Outcome.segments (generateDemoTranscription audioFile)
  else if findWhisperExecutable env ≠ [] then
    Outcome.whisperCpp audioFile (findWhisperExecutable env)
  else if findSystemWhisper env ≠ [] then
    Outcome.systemWhisper audioFile (findSystemWhisper env)
  else if findPython env ≠ [] then
    Outcome.pythonWhisper audioFile (findPython env)
  else Outcome.noBackendError

/-- The environment in which no probe succeeds. -/
def bareEnv : Env :=
  { stat := fun _ => false, lookPath := fun _ => none, importsWhisper := fun _ => false }

/-- The backend the specification selects, the candidates written out: the
first of the three local paths that exists, else the first of the four system
names found on the PATH, go to the native engine; else the `whisper` command
found on the PATH; else `python3`, else `python`, each when it is found on the
PATH and passes the check of loading `whisper`; else there is no backend. -/
def specSelect (env : Env) (audioFile : GoString) : Outcome :=
  if env.stat "./whisper.cpp/build/bin/whisper-cli".toList then
    Outcome.whisperCpp audioFile "./whisper.cpp/build/bin/whisper-cli".toList
  else if env.stat "./whisper.cpp/build/bin/main".toList then
    Outcome.whisperCpp audioFile "./whisper.cpp/build/bin/main".toList
  else if env.stat "./whisper.cpp/main".toList then
    Outcome.whisperCpp audioFile "./whisper.cpp/main".toList
  else if (env.lookPath "whisper.cpp".toList).isSome then
    Outcome.whisperCpp audioFile "whisper.cpp".toList
  else if (env.lookPath "whisper-cli".toList).isSome then
    Outcome.whisperCpp audioFile "whisper-cli".toList
  else if (env.lookPath "/usr/local/bin/whisper.cpp".toList).isSome then
    Outcome.whisperCpp audioFile "/usr/local/bin/whisper.cpp".toList
  else if (env.lookPath "/opt/homebrew/bin/whisper.cpp".toList).isSome then
    Outcome.whisperCpp audioFile "/opt/homebrew/bin/whisper.cpp".toList
  else
    match (env.lookPath "whisper".toList).filter (fun p => p ≠ []) with
    | some p => Outcome.systemWhisper audioFile p
    | none =>
      if (env.lookPath "python3".toList).isSome && env.importsWhisper "python3".toList then
        Outcome.pythonWhisper audioFile "python3".toList
      else if (env.lookPath "python".toList).isSome && env.importsWhisper "python".toList then
        Outcome.pythonWhisper audioFile "python".toList
      else Outcome.noBackendError

/-- An environment given by the paths that exist, the names found on the PATH
and the interpreters that can load `whisper`. As `exec.LookPath` does, the
lookup returns a name with a slash as it is, and a bare name under the
directory where it is found, here `/usr/bin`. -/
def probeEnv (files onPath importing : List GoString) : Env :=
  { stat := fun p => files.contains p
    lookPath := fun p =>
      if onPath.contains p then some (if p.contains '/' then p else "/usr/bin/".toList ++ p)
      else none
    importsWhisper := fun p => importing.contains p }

/-- A time code `HH:MM:SS,mmm` given by its nine digits. -/
structure Stamp where
  h1 : Fin 10
  h2 : Fin 10
  m1 : Fin 10
  m2 : Fin 10
  s1 : Fin 10
  s2 : Fin 10
  f1 : Fin 10
  f2 : Fin 10
  f3 : Fin 10

namespace Stamp

/-- The text `HH:MM:SS,mmm` of a time code. -/
def text (t : Stamp) : GoString :=
  [digitChar t.h1, digitChar t.h2, ':', digitChar t.m1, digitChar t.m2, ':',
   digitChar t.s1, digitChar t.s2, ',', digitChar t.f1, digitChar t.f2, digitChar t.f3]

/-- The hours field as a number. -/
def hours (t : Stamp) : Nat := 10 * t.h1 + t.h2

/-- The minutes field as a number. -/
def minutes (t : Stamp) : Nat := 10 * t.m1 + t.m2

/-- The seconds field as a number. -/
def seconds (t : Stamp) : Nat := 10 * t.s1 + t.s2

/-- The milliseconds field as a number. -/
def millis (t : Stamp) : Nat := 100 * t.f1 + 10 * t.f2 + t.f3

/-- The float64 `h*3600 + m*60 + s + ms/1000` of the fields, computed as
`parseTimeToSeconds` does: `float64(h*3600 + m*60 + s) + float64(ms)/1000.0`. -/
def value (t : Stamp) : F64 :=
  F64.add (F64.ofInt ((t.hours * 3600 + t.minutes * 60 + t.seconds : Nat) : Int))
    (F64.div (F64.ofInt (t.millis : Int)) (F64.ofInt 1000))

end Stamp

/-- A complete block of a subtitle file: an index line of digits, the line of
the two time codes, one text line and a blank line. -/
structure Block where
  index : List (Fin 10)
  start : Stamp
  stop : Stamp
  text : GoString

namespace Block

/-- The line `HH:MM:SS,mmm --> HH:MM:SS,mmm` of a block. -/
def stampLine (b : Block) : GoString := b.start.text ++ " --> ".toList ++ b.stop.text

/-- The index line of a block. -/
def indexLine (b : Block) : GoString := b.index.map fun (d : Fin 10) => digitChar d.val

/-- The four lines of a block, each ended by a line feed. -/
def render (b : Block) : GoString :=
  b.indexLine ++ '\n' :: b.stampLine ++ '\n' :: b.text ++ ['\n', '\n']

/-- The Segment a block stands for. -/
def segment (b : Block) : Segment :=
  { Start := b.start.value, End := b.stop.value, Text := TrimSpace b.text }

/-- The text of a block is one line that fits the buffer of the scanner, and so
does its index line. -/
def Fits (b : Block) : Prop :=
  '\n' ∉ b.text ∧ utf8Len b.text < MaxScanTokenSize ∧ b.index.length < MaxScanTokenSize

end Block

/-- An index line `3` and a line of time codes, for the end of an input. -/
def trailingBlock : Block :=
  { index := [3]
    start := ⟨0, 0, 0, 0, 0, 9, 0, 0, 0⟩
    stop := ⟨0, 0, 0, 0, 1, 0, 0, 0, 0⟩
    text := [] }

/-- A complete block whose text line has 65536 bytes. -/
def longBlock : Block :=
  { index := [1]
    start := ⟨0, 0, 0, 0, 0, 1, 0, 0, 0⟩
    stop := ⟨0, 0, 0, 0, 0, 2, 0, 0, 0⟩
    text := List.replicate 65536 'a' }

/-- Two complete blocks, the text of the first with white space around it. -/
def sampleBlocks : List Block :=
  [ { index := [1]
      start := ⟨0, 0, 0, 0, 0, 1, 0, 0, 0⟩
      stop := ⟨0, 0, 0, 0, 0, 3, 5, 0, 0⟩
      text := "  hello world \r".toList },
    { index := [2]
      start := ⟨0, 1, 0, 2, 0, 3, 0, 0, 4⟩
      stop := ⟨0, 1, 0, 2, 0, 7, 2, 0, 0⟩
      text := "second".toList } ]

/-- The content made of the given blocks, in order. -/
def renderBlocks : List Block → GoString
  | [] => []
  | b :: bs => b.render ++ renderBlocks bs


/-! ## Rounding to a 53-bit significand -/

namespace F64

theorem bitLenAux_zero (fuel : Nat) : bitLenAux fuel 0 = 0 := by
  cases fuel <;> simp [bitLenAux]

theorem bitLenAux_spec : ∀ fuel n : Nat, n ≤ fuel →
    n < 2 ^ bitLenAux fuel n ∧ (n ≠ 0 → 2 ^ (bitLenAux fuel n - 1) ≤ n) := by
  intro fuel
  induction fuel with
  | zero =>
    intro n hn
    have h0 : n = 0 := Nat.le_zero.mp hn
    subst h0
    simp [bitLenAux]
  | succ fuel ih =>
    intro n hn
    by_cases h0 : n = 0
    · subst h0
      simp [bitLenAux]
    · have hhalf : n / 2 ≤ fuel := by omega
      obtain ⟨hlt, hge⟩ := ih (n / 2) hhalf
      have hstep : bitLenAux (fuel + 1) n = bitLenAux fuel (n / 2) + 1 := by
        simp [bitLenAux, h0]
      rw [hstep]
      refine ⟨?_, fun _ => ?_⟩
      · rw [pow_succ]
        omega
      · simp only [Nat.add_sub_cancel]
        by_cases h2 : n / 2 = 0
        · rw [h2, bitLenAux_zero]
          simp
          omega
        · have h3 := hge h2
          have hpos : bitLenAux fuel (n / 2) ≠ 0 := by
            intro hz
            rw [hz] at hlt
            simp at hlt
            exact h2 hlt
          obtain ⟨j, hj⟩ := Nat.exists_eq_succ_of_ne_zero hpos
          rw [hj] at h3 ⊢
          simp only [Nat.succ_eq_add_one, Nat.add_sub_cancel] at h3
          rw [pow_succ]
          omega

theorem lt_two_pow_bitLen (n : Nat) : n < 2 ^ bitLen n :=
  (bitLenAux_spec n n le_rfl).1

theorem two_pow_bitLen_le (n : Nat) (h : n ≠ 0) : 2 ^ (bitLen n - 1) ≤ n :=
  (bitLenAux_spec n n le_rfl).2 h

theorem bitLen_zero : bitLen 0 = 0 := by simp [bitLen, bitLenAux]

theorem le_roundHalfEven (p q : Nat) : p / q ≤ roundHalfEven p q := by
  unfold roundHalfEven
  simp only
  split_ifs <;> omega

theorem roundHalfEven_le (p q j : Nat) (hq : 0 < q) (h : p ≤ j * q) : roundHalfEven p q ≤ j := by
  have hdiv : p / q ≤ j := by
    calc p / q ≤ j * q / q := Nat.div_le_div_right h
      _ = j := Nat.mul_div_cancel j hq
  have hmod := Nat.div_add_mod p q
  unfold roundHalfEven
  simp only
  have key : 0 < p % q → p / q + 1 ≤ j := by
    intro hr
    by_contra hcon
    have hj : j = p / q := by omega
    rw [hj] at h
    have : q * (p / q) = p / q * q := Nat.mul_comm _ _
    omega
  split_ifs with h1 h2 h3
  · exact hdiv
  · exact key (by omega)
  · exact hdiv
  · exact key (by omega)

theorem roundHalfEven_lt (p q j : Nat) (h : 2 * p + q < 2 * j * q) : roundHalfEven p q < j := by
  have hmod := Nat.div_add_mod p q
  have hq : 0 < q := by
    rcases Nat.eq_zero_or_pos q with h0 | h0
    · subst h0; simp at h
    · exact h0
  have hr : p % q < q := Nat.mod_lt p hq
  have e1 : q * (p / q) = p / q * q := Nat.mul_comm _ _
  have e2 : 2 * j * q = 2 * (j * q) := Nat.mul_assoc _ _ _
  -- either rounding lands strictly below j
  have hlow : p / q < j := by
    by_contra hcon
    have : j * q ≤ p / q * q := Nat.mul_le_mul_right q (not_lt.mp hcon)
    omega
  have hup : q ≤ 2 * (p % q) → p / q + 1 < j := by
    intro hge
    by_contra hcon
    have hle : j ≤ p / q + 1 := not_lt.mp hcon
    have : j * q ≤ (p / q + 1) * q := Nat.mul_le_mul_right q hle
    have e3 : (p / q + 1) * q = p / q * q + q := by ring
    omega
  unfold roundHalfEven
  simp only
  split_ifs with h1 h2 h3
  · exact hlow
  · exact hup (by omega)
  · exact hlow
  · exact hup (by omega)

/-- When the rounding shift `s` is positive, `p / q` is at least `2^(52+s)`. -/
theorem shift_pos_bound (p q : Nat) (hs : 0 < bitLen (p / q) - 53) :
    2 ^ (52 + (bitLen (p / q) - 53)) * q ≤ p := by
  have hN : p / q ≠ 0 := by
    intro h0
    rw [h0, bitLen_zero] at hs
    simp at hs
  have h1 := two_pow_bitLen_le (p / q) hN
  have e : bitLen (p / q) - 1 = 52 + (bitLen (p / q) - 53) := by omega
  rw [e] at h1
  calc 2 ^ (52 + (bitLen (p / q) - 53)) * q ≤ p / q * q := Nat.mul_le_mul_right q h1
    _ ≤ p := Nat.div_mul_le_self p q

theorem le_roundUnits (p q g : Nat) (hq : 0 < q) (hg : OnGrid g) (h : g * q ≤ p) :
    g ≤ roundUnits p q := by
  obtain ⟨m, t, hm, rfl⟩ := hg
  unfold roundUnits
  simp only
  generalize hs : bitLen (p / q) - 53 = s
  by_cases hts : s ≤ t
  · obtain ⟨e, rfl⟩ := Nat.exists_eq_add_of_le hts
    have hQ : 0 < q * 2 ^ s := Nat.mul_pos hq (Nat.pow_pos (by norm_num))
    have h2 : m * 2 ^ e ≤ p / (q * 2 ^ s) := by
      rw [Nat.le_div_iff_mul_le hQ]
      calc m * 2 ^ e * (q * 2 ^ s) = m * 2 ^ (s + e) * q := by ring
        _ ≤ p := h
    have h3 := le_roundHalfEven p (q * 2 ^ s)
    calc m * 2 ^ (s + e) = m * 2 ^ e * 2 ^ s := by ring
      _ ≤ roundHalfEven p (q * 2 ^ s) * 2 ^ s := Nat.mul_le_mul_right _ (le_trans h2 h3)
  · have hspos : 0 < bitLen (p / q) - 53 := by omega
    have hb := shift_pos_bound p q hspos
    rw [hs] at hb
    have hQ : 0 < q * 2 ^ s := Nat.mul_pos hq (Nat.pow_pos (by norm_num))
    have h2 : 2 ^ 52 ≤ p / (q * 2 ^ s) := by
      rw [Nat.le_div_iff_mul_le hQ]
      calc 2 ^ 52 * (q * 2 ^ s) = 2 ^ (52 + s) * q := by ring
        _ ≤ p := hb
    have h3 := le_roundHalfEven p (q * 2 ^ s)
    have h4 : 2 ^ 53 * 2 ^ t ≤ 2 ^ 52 * 2 ^ s := by
      rw [← pow_add, ← pow_add]
      exact Nat.pow_le_pow_right (by norm_num) (by omega)
    calc m * 2 ^ t ≤ 2 ^ 53 * 2 ^ t := Nat.mul_le_mul_right _ hm
      _ ≤ 2 ^ 52 * 2 ^ s := h4
      _ ≤ roundHalfEven p (q * 2 ^ s) * 2 ^ s := Nat.mul_le_mul_right _ (le_trans h2 h3)

/-- With a positive shift `s`, a grid point with a smaller exponent that is not
below `p / q` is `2^(52+s)`, and `p / q` equals it. -/
theorem grid_small_exponent (p q m t s : Nat) (hq : 0 < q) (hm : m ≤ 2 ^ 53) (hts : t < s)
    (hb : 2 ^ (52 + s) * q ≤ p) (h : p ≤ m * 2 ^ t * q) :
    m * 2 ^ t = 2 ^ (52 + s) := by
  have h4 : 2 ^ 53 * 2 ^ t ≤ 2 ^ (52 + s) := by
    rw [← pow_add]
    exact Nat.pow_le_pow_right (by norm_num) (by omega)
  have h5 : m * 2 ^ t ≤ 2 ^ (52 + s) := le_trans (Nat.mul_le_mul_right _ hm) h4
  have h6 : 2 ^ (52 + s) * q ≤ m * 2 ^ t * q := le_trans hb h
  have h7 : 2 ^ (52 + s) ≤ m * 2 ^ t := Nat.le_of_mul_le_mul_right h6 hq
  exact le_antisymm h5 h7

theorem roundUnits_le (p q g : Nat) (hq : 0 < q) (hg : OnGrid g) (h : p ≤ g * q) :
    roundUnits p q ≤ g := by
  obtain ⟨m, t, hm, rfl⟩ := hg
  unfold roundUnits
  simp only
  generalize hs : bitLen (p / q) - 53 = s
  have hQ : 0 < q * 2 ^ s := Nat.mul_pos hq (Nat.pow_pos (by norm_num))
  by_cases hts : s ≤ t
  · obtain ⟨e, rfl⟩ := Nat.exists_eq_add_of_le hts
    have h2 : roundHalfEven p (q * 2 ^ s) ≤ m * 2 ^ e := by
      apply roundHalfEven_le p (q * 2 ^ s) (m * 2 ^ e) hQ
      calc p ≤ m * 2 ^ (s + e) * q := h
        _ = m * 2 ^ e * (q * 2 ^ s) := by ring
    calc roundHalfEven p (q * 2 ^ s) * 2 ^ s ≤ m * 2 ^ e * 2 ^ s := Nat.mul_le_mul_right _ h2
      _ = m * 2 ^ (s + e) := by ring
  · have hspos : 0 < bitLen (p / q) - 53 := by omega
    have hb := shift_pos_bound p q hspos
    rw [hs] at hb
    have hg2 := grid_small_exponent p q m t s hq hm (by omega) hb h
    rw [hg2] at h ⊢
    have h2 : roundHalfEven p (q * 2 ^ s) ≤ 2 ^ 52 := by
      apply roundHalfEven_le p (q * 2 ^ s) (2 ^ 52) hQ
      calc p ≤ 2 ^ (52 + s) * q := h
        _ = 2 ^ 52 * (q * 2 ^ s) := by ring
    calc roundHalfEven p (q * 2 ^ s) * 2 ^ s ≤ 2 ^ 52 * 2 ^ s := Nat.mul_le_mul_right _ h2
      _ = 2 ^ (52 + s) := by ring

/-- Rounding stays strictly below a grid point `g` above `p / q` when the gap
is more than half a unit and more than `2^-53` of `p / q`. -/
theorem roundUnits_lt (p q g : Nat) (hg : OnGrid g)
    (h1 : 2 * p + q < 2 * (g * q)) (h2 : (2 ^ 53 + 1) * p < 2 ^ 53 * (g * q)) :
    roundUnits p q < g := by
  have hq : 0 < q := by
    rcases Nat.eq_zero_or_pos q with h0 | h0
    · subst h0; simp at h1
    · exact h0
  obtain ⟨m, t, hm, rfl⟩ := hg
  unfold roundUnits
  simp only
  generalize hs : bitLen (p / q) - 53 = s
  have hQ : 0 < q * 2 ^ s := Nat.mul_pos hq (Nat.pow_pos (by norm_num))
  by_cases hts : s ≤ t
  · obtain ⟨e, rfl⟩ := Nat.exists_eq_add_of_le hts
    have key : 2 * p + q * 2 ^ s < 2 * (m * 2 ^ e) * (q * 2 ^ s) := by
      have e1 : 2 * (m * 2 ^ e) * (q * 2 ^ s) = 2 * (m * 2 ^ (s + e) * q) := by ring
      rw [e1]
      rcases Nat.eq_zero_or_pos s with h0 | hpos
      · subst h0
        simpa using h1
      · have hspos : 0 < bitLen (p / q) - 53 := by omega
        have hb := shift_pos_bound p q hspos
        rw [hs] at hb
        have e2 : 2 ^ (52 + s) * q = 2 ^ 52 * (q * 2 ^ s) := by ring
        rw [e2] at hb
        have e3 : (2:Nat) ^ 53 = 2 * 2 ^ 52 := by norm_num
        rw [e3] at h2
        nlinarith
    have h3 := roundHalfEven_lt p (q * 2 ^ s) (m * 2 ^ e) key
    calc roundHalfEven p (q * 2 ^ s) * 2 ^ s < m * 2 ^ e * 2 ^ s :=
          Nat.mul_lt_mul_of_pos_right h3 (Nat.pow_pos (by norm_num))
      _ = m * 2 ^ (s + e) := by ring
  · exfalso
    have hspos : 0 < bitLen (p / q) - 53 := by omega
    have hb := shift_pos_bound p q hspos
    rw [hs] at hb
    have hle : p ≤ m * 2 ^ t * q := by omega
    have hg2 := grid_small_exponent p q m t s hq hm (by omega) hb hle
    rw [hg2] at h1
    omega

theorem roundUnits_exact (g q : Nat) (hq : 0 < q) (hg : OnGrid g) : roundUnits (g * q) q = g :=
  le_antisymm (roundUnits_le _ _ _ hq hg le_rfl) (le_roundUnits _ _ _ hq hg le_rfl)

theorem one_eq : one = 2 ^ 1074 := by
  unfold one
  exact Eq.refl _

theorem one_pos : 0 < one := by
  rw [one_eq]
  apply Nat.pow_pos
  norm_num

theorem one_split (a b : Nat) (h : a + b = 1074) : one = 2 ^ a * 2 ^ b := by
  rw [one_eq, ← pow_add, h]

theorem onGrid_mul_pow (m t : Nat) (hm : m ≤ 2 ^ 53) : OnGrid (m * 2 ^ t) := ⟨m, t, hm, rfl⟩

theorem onGrid_mul_one (m : Nat) (hm : m ≤ 2 ^ 53) : OnGrid (m * one) :=
  ⟨m, 1074, hm, by rw [one_eq]⟩

/-- Everything up to `2^53` ones is finite. -/
theorem le_maxFinite (k m : Nat) (hm : m ≤ 2 ^ 53) (hk : k ≤ m * one) : k ≤ maxFinite := by
  have h1 : m * one ≤ 2 ^ 53 * one := Nat.mul_le_mul_right _ hm
  have h2 : (2:Nat) ^ 53 * 2 ^ 1074 ≤ 1 * 2 ^ 2045 := by
    rw [← pow_add, one_mul]
    apply Nat.pow_le_pow_right
    · norm_num
    · norm_num
  have h3 : 1 * 2 ^ 2045 ≤ maxFinite := by
    have e : maxFinite = (2 ^ 53 - 1) * 2 ^ 2045 := by
      unfold maxFinite
      exact Eq.refl _
    rw [e]
    exact Nat.mul_le_mul_right _ (by norm_num)
  rw [one_eq] at hk h1
  exact le_trans hk (le_trans h1 (le_trans h2 h3))

/-- Upper enclosure on a binary grid of step `2^-a`: if `p / q ≤ m / 2^a` ones
then so is its rounding. -/
theorem roundUnits_le_scaled (p q m a : Nat) (hq : 0 < q) (ha : a ≤ 1074) (hm : m ≤ 2 ^ 53)
    (h : 2 ^ a * p ≤ m * one * q) : 2 ^ a * roundUnits p q ≤ m * one := by
  have e1 : one = 2 ^ a * 2 ^ (1074 - a) := one_split a (1074 - a) (by omega)
  have hpos : 0 < 2 ^ a := by
    apply Nat.pow_pos
    norm_num
  have h1 : p ≤ m * 2 ^ (1074 - a) * q := by
    apply Nat.le_of_mul_le_mul_left _ hpos
    calc 2 ^ a * p ≤ m * one * q := h
      _ = 2 ^ a * (m * 2 ^ (1074 - a) * q) := by rw [e1]; ring
  have h2 := roundUnits_le p q _ hq (onGrid_mul_pow m (1074 - a) hm) h1
  calc 2 ^ a * roundUnits p q ≤ 2 ^ a * (m * 2 ^ (1074 - a)) := Nat.mul_le_mul_left _ h2
    _ = m * one := by rw [e1]; ring

/-- Lower enclosure on a binary grid of step `2^-a`. -/
theorem le_roundUnits_scaled (p q m a : Nat) (hq : 0 < q) (ha : a ≤ 1074) (hm : m ≤ 2 ^ 53)
    (h : m * one * q ≤ 2 ^ a * p) : m * one ≤ 2 ^ a * roundUnits p q := by
  have e1 : one = 2 ^ a * 2 ^ (1074 - a) := one_split a (1074 - a) (by omega)
  have hpos : 0 < 2 ^ a := by
    apply Nat.pow_pos
    norm_num
  have h1 : m * 2 ^ (1074 - a) * q ≤ p := by
    apply Nat.le_of_mul_le_mul_left _ hpos
    calc 2 ^ a * (m * 2 ^ (1074 - a) * q) = m * one * q := by rw [e1]; ring
      _ ≤ 2 ^ a * p := h
  have h2 := le_roundUnits p q _ hq (onGrid_mul_pow m (1074 - a) hm) h1
  calc m * one = 2 ^ a * (m * 2 ^ (1074 - a)) := by rw [e1]; ring
    _ ≤ 2 ^ a * roundUnits p q := Nat.mul_le_mul_left _ h2

end F64

/-! ## Arithmetic on non-negative float64 values -/

namespace F64

theorem pack_false (p q : Nat) (h : roundUnits p q ≤ maxFinite) :
    pack false p q = fin false (roundUnits p q) := by
  unfold pack
  simp only
  rw [if_neg (not_lt.mpr h)]

theorem ofInt_natCast (n : Nat) (h : n ≤ 2 ^ 53) : ofInt (n : Int) = fin false (n * one) := by
  have hr : roundUnits (n * one * 1) 1 = n * one :=
    roundUnits_exact (n * one) 1 (by norm_num) (onGrid_mul_one n h)
  rw [Nat.mul_one] at hr
  unfold ofInt
  have hneg : decide ((n : Int) < 0) = false := by simp
  rw [hneg, Int.natAbs_ofNat, pack_false _ _ (by rw [hr]; exact le_maxFinite _ n h le_rfl), hr]

theorem toInt64_fin_false (impl : F64 → Int) (k : Nat) (h : k / one < 2 ^ 63) :
    toInt64 impl (fin false k) = ((k / one : Nat) : Int) := by
  unfold toInt64
  simp only [Bool.false_eq_true, if_false]
  have h1 : -(2 ^ 63 : Int) ≤ ((k / one : Nat) : Int) := by
    have : (0 : Int) ≤ ((k / one : Nat) : Int) := Int.ofNat_nonneg _
    omega
  have h2 : ((k / one : Nat) : Int) < 2 ^ 63 := by exact_mod_cast h
  rw [if_pos ⟨h1, h2⟩]

/-- The quotient of two non-negative finite values, as long as it is finite. -/
theorem div_fin_false (a b : Nat) (hb : b ≠ 0) (h : roundUnits (a * one) b ≤ maxFinite) :
    div (fin false a) (fin false b) = fin false (roundUnits (a * one) b) := by
  unfold div
  simp only [hb, if_false, bne_self_eq_false]
  exact pack_false _ _ h

theorem add_fin_false (a b : Nat) (h : roundUnits (a + b) 1 ≤ maxFinite) :
    add (fin false a) (fin false b) = fin false (roundUnits (a + b) 1) := by
  unfold add
  simp only [if_true]
  exact pack_false _ _ h

theorem mul_fin_false (a b : Nat) (h : roundUnits (a * b) one ≤ maxFinite) :
    mul (fin false a) (fin false b) = fin false (roundUnits (a * b) one) := by
  unfold mul
  simp only [bne_self_eq_false]
  exact pack_false _ _ h

end F64

theorem ofInt_billion : F64.ofInt 1000000000 = F64.fin false (1000000000 * F64.one) := by
  have h := F64.ofInt_natCast 1000000000 (by norm_num)
  exact_mod_cast h

theorem ofInt_thousand : F64.ofInt 1000 = F64.fin false (1000 * F64.one) := by
  have h := F64.ofInt_natCast 1000 (by norm_num)
  exact_mod_cast h

theorem roundUnits_zero (q : Nat) (hq : 0 < q) : F64.roundUnits 0 q = 0 := by
  have h := F64.roundUnits_exact 0 q hq ⟨0, 0, by norm_num, by norm_num⟩
  rw [Nat.zero_mul] at h
  exact h

theorem toRat_fin_false (k : Nat) : F64.toRat (F64.fin false k) = (k : ℚ) / (F64.one : ℚ) := by
  simp [F64.toRat, F64.units]

theorem toRat_zero (s : Bool) : F64.toRat (F64.fin s 0) = 0 := by
  cases s <;> simp [F64.toRat, F64.units]

theorem toRat_sub_gt (a b : F64) (c : Nat) (h : (F64.one : Int) < (F64.units a - F64.units b) * c) :
    1 / (c : ℚ) < F64.toRat a - F64.toRat b := by
  unfold F64.toRat
  have hone : (0 : ℚ) < (F64.one : ℚ) := by exact_mod_cast F64.one_pos
  have hc : (0 : ℚ) < (c : ℚ) := by
    rcases Nat.eq_zero_or_pos c with h0 | h0
    · subst h0
      simp at h
      have := F64.one_pos
      omega
    · exact_mod_cast h0
  have h2 : (F64.one : ℚ) < ((F64.units a : ℚ) - (F64.units b : ℚ)) * (c : ℚ) := by
    exact_mod_cast h
  rw [← sub_div, div_lt_div_iff₀ hc hone]
  linarith

theorem toInt64_congr (impl impl2 : F64 → Int) (x : F64) (h : F64.inInt64 x = true) :
    F64.toInt64 impl x = F64.toInt64 impl2 x := by
  cases x with
  | fin s k =>
    unfold F64.inInt64 at h
    simp only [decide_eq_true_eq] at h
    unfold F64.toInt64
    simp only
    rw [if_pos h, if_pos h]
  | inf s => simp [F64.inInt64] at h
  | nan => simp [F64.inInt64] at h

/-! ## The whole seconds of a duration -/

theorem Seconds_natCast (d : Nat) :
    Seconds (d : Int) = F64.add (F64.ofInt ((d / 1000000000 : Nat) : Int))
      (F64.div (F64.ofInt ((d % 1000000000 : Nat) : Int)) (F64.ofInt ((1000000000 : Nat) : Int))) := by
  unfold Seconds
  have h1 : (d : Int).tdiv 1000000000 = ((d / 1000000000 : Nat) : Int) := by
    rw [Int.tdiv_eq_ediv (Int.ofNat_nonneg d) (by norm_num)]
    norm_cast
  have h2 : (d : Int).tmod 1000000000 = ((d % 1000000000 : Nat) : Int) := by
    rw [Int.tmod_eq_emod (Int.ofNat_nonneg d) (by norm_num)]
    norm_cast
  rw [h1, h2]
  norm_cast

/-- The fractional part of `Seconds d` for `d ≥ 0`, `float64(nsec) / 1e9`, is at
most `1 - 2^-30`. -/
theorem fraction_le (n : Nat) (hn : n < 1000000000) :
    2 ^ 30 * F64.roundUnits (n * F64.one * F64.one) (1000000000 * F64.one)
      ≤ (2 ^ 30 - 1) * F64.one := by
  apply F64.roundUnits_le_scaled _ _ _ 30 (Nat.mul_pos (by norm_num) F64.one_pos)
    (by norm_num) (by norm_num)
  have h2 : 2 ^ 30 * n ≤ (2 ^ 30 - 1) * 1000000000 := by omega
  calc 2 ^ 30 * (n * F64.one * F64.one) = 2 ^ 30 * n * (F64.one * F64.one) := by ring
    _ ≤ (2 ^ 30 - 1) * 1000000000 * (F64.one * F64.one) := Nat.mul_le_mul_right _ h2
    _ = (2 ^ 30 - 1) * F64.one * (1000000000 * F64.one) := by ring

/-- Below `2^23` seconds, `int(d.Seconds())` is the whole seconds of `d`. -/
theorem toInt64_Seconds (impl : F64 → Int) (d : Nat) (hd : d < 2 ^ 23 * 1000000000) :
    F64.toInt64 impl (Seconds (d : Int)) = ((d / 1000000000 : Nat) : Int) := by
  have hsec : d / 1000000000 < 2 ^ 23 := by
    rw [Nat.div_lt_iff_lt_mul (by norm_num)]
    exact hd
  have hnsec : d % 1000000000 < 1000000000 := Nat.mod_lt _ (by norm_num)
  rw [Seconds_natCast]
  generalize d / 1000000000 = sec at hsec
  generalize d % 1000000000 = nsec at hnsec
  have hfrac := fraction_le nsec hnsec
  have hone := F64.one_pos
  rw [F64.ofInt_natCast sec (by omega), F64.ofInt_natCast nsec (by omega),
    F64.ofInt_natCast 1000000000 (by norm_num)]
  have hb : 1000000000 * F64.one ≠ 0 := by omega
  rw [F64.div_fin_false _ _ hb (F64.le_maxFinite _ 1 (by norm_num) (by omega))]
  generalize F64.roundUnits (nsec * F64.one * F64.one) (1000000000 * F64.one) = f at hfrac
  -- the sum lies between `sec` and the last point of the grid of step `2^-30` below `sec + 1`
  have hlo : sec * F64.one ≤ F64.roundUnits (sec * F64.one + f) 1 :=
    F64.le_roundUnits _ _ _ (by norm_num) (F64.onGrid_mul_one sec (by omega)) (by omega)
  have hhi : 2 ^ 30 * F64.roundUnits (sec * F64.one + f) 1 ≤ ((sec + 1) * 2 ^ 30 - 1) * F64.one := by
    apply F64.roundUnits_le_scaled _ _ _ 30 (by norm_num) (by norm_num) (by omega)
    have e3 : (sec + 1) * 2 ^ 30 - 1 = sec * 2 ^ 30 + (2 ^ 30 - 1) := by omega
    rw [e3]
    nlinarith
  have hlt : F64.roundUnits (sec * F64.one + f) 1 < (sec + 1) * F64.one := by
    have h1 : ((sec + 1) * 2 ^ 30 - 1) * F64.one < (sec + 1) * 2 ^ 30 * F64.one :=
      Nat.mul_lt_mul_of_pos_right (by omega) hone
    have h2 : 2 ^ 30 * F64.roundUnits (sec * F64.one + f) 1 < 2 ^ 30 * ((sec + 1) * F64.one) := by
      calc 2 ^ 30 * F64.roundUnits (sec * F64.one + f) 1
          ≤ ((sec + 1) * 2 ^ 30 - 1) * F64.one := hhi
        _ < (sec + 1) * 2 ^ 30 * F64.one := h1
        _ = 2 ^ 30 * ((sec + 1) * F64.one) := by ring
    exact Nat.lt_of_mul_lt_mul_left h2
  rw [F64.add_fin_false _ _ (F64.le_maxFinite _ (sec + 1) (by omega) (le_of_lt hlt))]
  have hq : F64.roundUnits (sec * F64.one + f) 1 / F64.one = sec :=
    Nat.div_eq_of_lt_le hlo hlt
  rw [F64.toInt64_fin_false impl _ (by rw [hq]; omega), hq]

/-! ## Decimal numerals -/

theorem isDigit_digitChar (n : Nat) (h : n < 10) : isDigit (digitChar n) = true := by
  interval_cases n <;> rfl

theorem digitVal_digitChar (n : Nat) (h : n < 10) : digitVal (digitChar n) = n := by
  interval_cases n <;> rfl

theorem isDigit_ne (c a : Char) (hc : isDigit c = true) (ha : isDigit a = false) : c ≠ a := by
  intro h
  rw [h, ha] at hc
  exact Bool.false_ne_true hc

theorem digitsValue_append_single (l : List Char) (c : Char) (acc : Nat) :
    digitsValue (l ++ [c]) acc =
      (digitsValue l acc).bind fun v => if isDigit c then some (v * 10 + digitVal c) else none := by
  induction l generalizing acc with
  | nil => simp [digitsValue]
  | cons a l ih =>
    by_cases h : isDigit a = true
    · simp only [List.cons_append, digitsValue, h, if_true]
      exact ih _
    · simp [digitsValue, h]

theorem digitsValue_natDigits : ∀ fuel n : Nat, n < fuel →
    digitsValue (natDigits fuel n) 0 = some n := by
  intro fuel
  induction fuel with
  | zero => intro n hn; omega
  | succ fuel ih =>
    intro n hn
    unfold natDigits
    split_ifs with h
    · simp [digitsValue, isDigit_digitChar n h, digitVal_digitChar n h]
    · rw [digitsValue_append_single, ih (n / 10) (by omega)]
      simp [isDigit_digitChar (n % 10) (Nat.mod_lt _ (by norm_num)),
        digitVal_digitChar (n % 10) (Nat.mod_lt _ (by norm_num))]
      omega

theorem digitsValue_decimal (n : Nat) : digitsValue (decimal n) 0 = some n :=
  digitsValue_natDigits (n + 1) n (Nat.lt_succ_self n)

theorem natDigits_all_digits : ∀ fuel n : Nat, ∀ c ∈ natDigits fuel n, isDigit c = true := by
  intro fuel
  induction fuel with
  | zero => intro n c hc; simp [natDigits] at hc
  | succ fuel ih =>
    intro n c hc
    unfold natDigits at hc
    split_ifs at hc with h
    · simp at hc
      rw [hc]
      exact isDigit_digitChar n h
    · rw [List.mem_append] at hc
      rcases hc with hc | hc
      · exact ih _ c hc
      · simp at hc
        rw [hc]
        exact isDigit_digitChar _ (Nat.mod_lt _ (by norm_num))

theorem decimal_all_digits (n : Nat) : ∀ c ∈ decimal n, isDigit c = true :=
  natDigits_all_digits (n + 1) n

theorem decimal_ne_nil (n : Nat) : decimal n ≠ [] := by
  unfold decimal natDigits
  split_ifs <;> simp

theorem decimal_lt_ten (n : Nat) (h : n < 10) : decimal n = [digitChar n] := by
  unfold decimal natDigits
  rw [if_pos h]

theorem natDigits_fuel : ∀ fuel fuel2 n : Nat, n < fuel → n < fuel2 →
    natDigits fuel n = natDigits fuel2 n := by
  intro fuel
  induction fuel with
  | zero => intro fuel2 n hn; omega
  | succ fuel ih =>
    intro fuel2 n hn hn2
    obtain ⟨g, rfl⟩ := Nat.exists_eq_succ_of_ne_zero (Nat.not_eq_zero_of_lt hn2)
    unfold natDigits
    split_ifs with h
    · rfl
    · rw [ih g (n / 10) (by omega) (by omega)]

theorem decimal_ge_ten (n : Nat) (h : 10 ≤ n) :
    decimal n = decimal (n / 10) ++ [digitChar (n % 10)] := by
  unfold decimal
  conv_lhs => unfold natDigits
  rw [if_neg (by omega), natDigits_fuel n (n / 10 + 1) (n / 10) (by omega) (by omega)]

theorem decimal_two (n : Nat) (h1 : 10 ≤ n) (h2 : n < 100) :
    decimal n = [digitChar (n / 10), digitChar (n % 10)] := by
  rw [decimal_ge_ten n h1, decimal_lt_ten (n / 10) (by omega)]
  rfl

theorem decimal_three (n : Nat) (h1 : 100 ≤ n) (h2 : n < 1000) :
    decimal n = [digitChar (n / 100), digitChar (n / 10 % 10), digitChar (n % 10)] := by
  rw [decimal_ge_ten n (by omega), decimal_two (n / 10) (by omega) (by omega)]
  have e : n / 10 / 10 = n / 100 := by omega
  rw [e]
  rfl

/-! ## The `fmt` verbs and `strconv.Atoi` -/

theorem fmtInt_natCast (w n : Nat) :
    fmtInt w (n : Int) = List.replicate (w - (decimal n).length) '0' ++ decimal n := by
  unfold fmtInt
  have h : ¬ ((n : Int) < 0) := by omega
  rw [if_neg h]
  simp

theorem fmtInt_zero_natCast (n : Nat) : fmtInt 0 (n : Int) = decimal n := by
  rw [fmtInt_natCast]
  simp

/-- A number below 100 prints under `%02d` as exactly its two digits. -/
theorem fmtInt_two (n : Nat) (h : n < 100) :
    fmtInt 2 (n : Int) = [digitChar (n / 10), digitChar (n % 10)] := by
  rw [fmtInt_natCast]
  by_cases h10 : n < 10
  · rw [decimal_lt_ten n h10]
    have e1 : n / 10 = 0 := by omega
    have e2 : n % 10 = n := by omega
    rw [e1, e2]
    rfl
  · rw [decimal_two n (by omega) h]
    rfl

/-- A number below 1000 prints under `%03d` as exactly its three digits. -/
theorem fmtInt_three (n : Nat) (h : n < 1000) :
    fmtInt 3 (n : Int) = [digitChar (n / 100), digitChar (n / 10 % 10), digitChar (n % 10)] := by
  rw [fmtInt_natCast]
  by_cases h100 : n < 100
  · by_cases h10 : n < 10
    · rw [decimal_lt_ten n h10]
      have e1 : n / 100 = 0 := by omega
      have e2 : n / 10 % 10 = 0 := by omega
      have e3 : n % 10 = n := by omega
      rw [e1, e2, e3]
      rfl
    · rw [decimal_two n (by omega) h100]
      have e1 : n / 100 = 0 := by omega
      have e2 : n / 10 % 10 = n / 10 := by omega
      rw [e1, e2]
      rfl
  · rw [decimal_three n (by omega) h]
    rfl

/-- From 100 on, `%02d` prints the full numeral: nothing is cut off. -/
theorem fmtInt_two_large (n : Nat) (h : 100 ≤ n) : fmtInt 2 (n : Int) = decimal n := by
  rw [fmtInt_natCast, decimal_ge_ten n (by omega), decimal_ge_ten (n / 10) (by omega)]
  simp

theorem two_le_length_fmtInt (n : Nat) : 2 ≤ (fmtInt 2 (n : Int)).length := by
  rw [fmtInt_natCast, List.length_append, List.length_replicate]
  omega

theorem fmtInt_all_digits (w n : Nat) : ∀ c ∈ fmtInt w (n : Int), isDigit c = true := by
  intro c hc
  rw [fmtInt_natCast, List.mem_append] at hc
  rcases hc with hc | hc
  · rw [List.mem_replicate] at hc
    rw [hc.2]
    rfl
  · exact decimal_all_digits n c hc

theorem fmtInt_ne_nil (w n : Nat) : fmtInt w (n : Int) ≠ [] := by
  rw [fmtInt_natCast]
  simp [decimal_ne_nil]

theorem digitsValue_zeros (k : Nat) (l : List Char) :
    digitsValue (List.replicate k '0' ++ l) 0 = digitsValue l 0 := by
  induction k with
  | zero => rfl
  | succ k ih =>
    rw [List.replicate_succ, List.cons_append]
    have e : digitsValue ('0' :: (List.replicate k '0' ++ l)) 0
        = digitsValue (List.replicate k '0' ++ l) 0 := by
      rw [digitsValue, if_pos (by rfl)]
      rfl
    rw [e, ih]

theorem digitsValue_fmtInt (w n : Nat) : digitsValue (fmtInt w (n : Int)) 0 = some n := by
  rw [fmtInt_natCast, digitsValue_zeros, digitsValue_decimal]

/-- A run of digits is worth at least what it continues. -/
theorem le_digitsValue : ∀ (l : List Char) (acc n : Nat), digitsValue l acc = some n → acc ≤ n := by
  intro l
  induction l with
  | nil =>
    intro acc n h
    simp only [digitsValue, Option.some.injEq] at h
    omega
  | cons c cs ih =>
    intro acc n h
    by_cases hc : isDigit c = true
    · rw [digitsValue, if_pos hc] at h
      have := ih _ _ h
      omega
    · rw [digitsValue, if_neg hc] at h
      exact Option.noConfusion h

/-- Below `2^64`, `ParseUint` returns the value of the digits. -/
theorem ParseUint_of_digitsValue : ∀ (l : List Char) (acc n : Nat),
    digitsValue l acc = some n → n < 2 ^ 64 → ParseUint l acc = some n := by
  intro l
  induction l with
  | nil =>
    intro acc n h _
    simpa [digitsValue, ParseUint] using h
  | cons c cs ih =>
    intro acc n h hn
    by_cases hc : isDigit c = true
    · rw [digitsValue, if_pos hc] at h
      have hle := le_digitsValue _ _ _ h
      rw [ParseUint, if_pos hc, if_neg (by omega)]
      exact ih _ _ h hn
    · rw [digitsValue, if_neg hc] at h
      exact Option.noConfusion h

set_option maxRecDepth 100000 in
/-- The errors of `strconv.Atoi`, dropped by the caller: a syntax error gives 0,
and digits past the range give the nearest bound, also when a character that is
no digit follows them. -/
theorem Atoi_errors :
    Atoi "12x".toList = 0 ∧ Atoi "".toList = 0 ∧ Atoi "+".toList = 0
    ∧ Atoi "9223372036854775808".toList = 2 ^ 63 - 1
    ∧ Atoi "-9223372036854775809".toList = -(2 ^ 63)
    ∧ Atoi "99999999999999999999x".toList = 2 ^ 63 - 1
    ∧ Atoi "-99999999999999999999x".toList = -(2 ^ 63)
    ∧ Atoi "-0042".toList = -42 := by
  decide!

theorem Atoi_of_digits (l : List Char) (n : Nat) (hne : l ≠ [])
    (hall : ∀ c ∈ l, isDigit c = true) (hd : digitsValue l 0 = some n) (h : n < 2 ^ 63) :
    Atoi l = n := by
  have hp := ParseUint_of_digitsValue l 0 n hd (lt_trans h (by norm_num))
  cases l with
  | nil => exact absurd rfl hne
  | cons c cs =>
    have hc : isDigit c = true := hall c (List.mem_cons_self _ _)
    have h1 : (c == '-') = false := by
      rw [beq_eq_false_iff_ne]
      exact isDigit_ne c '-' hc rfl
    have h2 : (c == '+') = false := by
      rw [beq_eq_false_iff_ne]
      exact isDigit_ne c '+' hc rfl
    unfold Atoi
    simp only [h1, h2, Bool.or_self, Bool.false_eq_true, if_false, hp]
    rw [if_neg (not_le.mpr h), if_neg hne]

/-- Reading back what `%0wd` printed gives the number. -/
theorem Atoi_fmtInt (w n : Nat) (h : n < 2 ^ 63) : Atoi (fmtInt w (n : Int)) = n :=
  Atoi_of_digits _ n (fmtInt_ne_nil w n) (fmtInt_all_digits w n) (digitsValue_fmtInt w n) h

theorem Atoi_two_digits (a b : Fin 10) :
    Atoi [digitChar a, digitChar b] = ((10 * (a : Nat) + b : Nat) : Int) := by
  apply Atoi_of_digits _ _ (by simp)
  · intro c hc
    simp only [List.mem_cons, List.mem_singleton, List.not_mem_nil, or_false] at hc
    rcases hc with hc | hc <;> rw [hc]
    · exact isDigit_digitChar _ a.isLt
    · exact isDigit_digitChar _ b.isLt
  · simp only [digitsValue, isDigit_digitChar _ a.isLt, isDigit_digitChar _ b.isLt,
      digitVal_digitChar _ a.isLt, digitVal_digitChar _ b.isLt, if_true]
    congr 1
    omega
  · have := a.isLt
    have := b.isLt
    omega

theorem Atoi_three_digits (a b c : Fin 10) :
    Atoi [digitChar a, digitChar b, digitChar c]
      = ((100 * (a : Nat) + 10 * (b : Nat) + c : Nat) : Int) := by
  apply Atoi_of_digits _ _ (by simp)
  · intro x hx
    simp only [List.mem_cons, List.mem_singleton, List.not_mem_nil, or_false] at hx
    rcases hx with hx | hx | hx <;> rw [hx]
    · exact isDigit_digitChar _ a.isLt
    · exact isDigit_digitChar _ b.isLt
    · exact isDigit_digitChar _ c.isLt
  · simp only [digitsValue, isDigit_digitChar _ a.isLt, isDigit_digitChar _ b.isLt,
      isDigit_digitChar _ c.isLt, digitVal_digitChar _ a.isLt, digitVal_digitChar _ b.isLt,
      digitVal_digitChar _ c.isLt, if_true]
    congr 1
    omega
  · have := a.isLt
    have := b.isLt
    have := c.isLt
    omega

/-! ## `formatTime` on non-negative durations -/

theorem tdiv_natCast (a b : Nat) : (a : Int).tdiv (b : Int) = ((a / b : Nat) : Int) := by
  rw [Int.tdiv_eq_ediv (Int.ofNat_nonneg a) (Int.ofNat_nonneg b)]
  norm_cast

theorem tmod_natCast (a b : Nat) : (a : Int).tmod (b : Int) = ((a % b : Nat) : Int) := by
  rw [Int.tmod_eq_emod (Int.ofNat_nonneg a) (Int.ofNat_nonneg b)]
  norm_cast

/-- The four fields of the time code of a duration of `w` whole seconds (by
`int(d.Seconds())`) and `d` nanoseconds. -/
theorem formatTime_fields (impl : F64 → Int) (d w : Nat)
    (hw : F64.toInt64 impl (Seconds (d : Int)) = (w : Int)) :
    formatTime impl (d : Int) =
      fmtInt 2 ((w / 3600 : Nat) : Int) ++ ':' :: fmtInt 2 ((w % 3600 / 60 : Nat) : Int)
        ++ ':' :: fmtInt 2 ((w % 60 : Nat) : Int)
        ++ ',' :: fmtInt 3 ((d / 1000000 % 1000 : Nat) : Int) := by
  unfold formatTime
  simp only [hw]
  have h1 : (w : Int).tdiv 3600 = ((w / 3600 : Nat) : Int) := by
    exact_mod_cast tdiv_natCast w 3600
  have h2 : ((w : Int).tmod 3600).tdiv 60 = ((w % 3600 / 60 : Nat) : Int) := by
    have e : (w : Int).tmod 3600 = ((w % 3600 : Nat) : Int) := by
      exact_mod_cast tmod_natCast w 3600
    rw [e]
    exact_mod_cast tdiv_natCast (w % 3600) 60
  have h3 : (w : Int).tmod 60 = ((w % 60 : Nat) : Int) := by
    exact_mod_cast tmod_natCast w 60
  have h4 : ((d : Int).tdiv 1000000).tmod 1000 = ((d / 1000000 % 1000 : Nat) : Int) := by
    have e : (d : Int).tdiv 1000000 = ((d / 1000000 : Nat) : Int) := by
      exact_mod_cast tdiv_natCast d 1000000
    rw [e]
    exact_mod_cast tmod_natCast (d / 1000000) 1000
  rw [h1, h2, h3, h4]

/-- Below `2^23` seconds the fields of `formatTime d` come from the whole
seconds and the whole milliseconds of `d`. -/
theorem formatTime_natCast (impl : F64 → Int) (d : Nat) (hd : d < 2 ^ 23 * 1000000000) :
    formatTime impl (d : Int) =
      fmtInt 2 ((d / 1000000000 / 3600 : Nat) : Int)
        ++ ':' :: fmtInt 2 ((d / 1000000000 % 3600 / 60 : Nat) : Int)
        ++ ':' :: fmtInt 2 ((d / 1000000000 % 60 : Nat) : Int)
        ++ ',' :: fmtInt 3 ((d / 1000000 % 1000 : Nat) : Int) :=
  formatTime_fields impl d (d / 1000000000) (toInt64_Seconds impl d hd)

/-- Below `2^23` seconds, `formatTime d` is `H:MM:SS,mmm` with `w` the whole
seconds of `d`: `H = w / 3600` printed with at least two digits and in full,
`MM = (w mod 3600) / 60` and `SS = w mod 60` printed as two digits, both below
60, and `mmm` the whole milliseconds of the sub-second remainder, printed as
three digits. -/
theorem formatTime_shape (impl : F64 → Int) (d : Nat) (hd : d < 2 ^ 23 * 1000000000) :
    formatTime impl (d : Int)
        = fmtInt 2 ((d / 1000000000 / 3600 : Nat) : Int)
          ++ ':' :: [digitChar (d / 1000000000 % 3600 / 60 / 10),
            digitChar (d / 1000000000 % 3600 / 60 % 10)]
          ++ ':' :: [digitChar (d / 1000000000 % 60 / 10), digitChar (d / 1000000000 % 60 % 10)]
          ++ ',' :: [digitChar (d % 1000000000 / 1000000 / 100),
            digitChar (d % 1000000000 / 1000000 / 10 % 10),
            digitChar (d % 1000000000 / 1000000 % 10)]
      ∧ d / 1000000000 % 3600 / 60 < 60 ∧ d / 1000000000 % 60 < 60
      ∧ d % 1000000000 / 1000000 < 1000
      ∧ 2 ≤ (fmtInt 2 ((d / 1000000000 / 3600 : Nat) : Int)).length
      ∧ digitsValue (fmtInt 2 ((d / 1000000000 / 3600 : Nat) : Int)) 0
        = some (d / 1000000000 / 3600) := by
  have h1 : d / 1000000000 % 3600 / 60 < 60 := by omega
  have h2 : d / 1000000000 % 60 < 60 := by omega
  have h3 : d % 1000000000 / 1000000 < 1000 := by omega
  refine ⟨?_, h1, h2, h3, two_le_length_fmtInt _, digitsValue_fmtInt _ _⟩
  rw [formatTime_natCast impl d hd, fmtInt_two (d / 1000000000 % 3600 / 60) (by omega),
    fmtInt_two (d / 1000000000 % 60) (by omega)]
  have e : d / 1000000 % 1000 = d % 1000000000 / 1000000 := by omega
  rw [e, fmtInt_three _ h3]

theorem formatTime_congr (impl impl2 : F64 → Int) (d : Int)
    (h : F64.inInt64 (Seconds d) = true) : formatTime impl d = formatTime impl2 d := by
  unfold formatTime
  rw [toInt64_congr impl impl2 _ h]

theorem takeWhile_sep (p : Char → Bool) (l r : List Char) (a : Char)
    (hl : ∀ x ∈ l, p x = true) (ha : p a = false) : (l ++ a :: r).takeWhile p = l := by
  induction l with
  | nil => simp [List.takeWhile, ha]
  | cons x l ih =>
    rw [List.cons_append, List.takeWhile_cons, hl x (List.mem_cons_self _ _)]
    simp only [if_true]
    rw [ih (fun y hy => hl y (List.mem_cons_of_mem _ hy))]

theorem dropWhile_sep (p : Char → Bool) (l r : List Char) (a : Char)
    (hl : ∀ x ∈ l, p x = true) (ha : p a = false) : (l ++ a :: r).dropWhile p = a :: r := by
  induction l with
  | nil => simp [List.dropWhile, ha]
  | cons x l ih =>
    rw [List.cons_append, List.dropWhile_cons, hl x (List.mem_cons_self _ _)]
    simp only [if_true]
    exact ih (fun y hy => hl y (List.mem_cons_of_mem _ hy))

theorem splitCode_fields (a b c e : GoString)
    (ha : ∀ x ∈ a, isDigit x = true) (hb : ∀ x ∈ b, isDigit x = true)
    (hc : ∀ x ∈ c, isDigit x = true) :
    splitCode (a ++ ':' :: b ++ ':' :: c ++ ',' :: e) = (a, b, c, e) := by
  have pa : ∀ x ∈ a, (fun c : Char => c != ':') x = true := fun x hx => by
    simp only [bne_iff_ne]
    exact isDigit_ne x ':' (ha x hx) rfl
  have pb : ∀ x ∈ b, (fun c : Char => c != ':') x = true := fun x hx => by
    simp only [bne_iff_ne]
    exact isDigit_ne x ':' (hb x hx) rfl
  have pc : ∀ x ∈ c, (fun c : Char => c != ',') x = true := fun x hx => by
    simp only [bne_iff_ne]
    exact isDigit_ne x ',' (hc x hx) rfl
  have e1 : a ++ ':' :: b ++ ':' :: c ++ ',' :: e = a ++ ':' :: (b ++ ':' :: (c ++ ',' :: e)) := by
    simp [List.append_assoc]
  unfold splitCode
  simp only [e1]
  rw [takeWhile_sep _ a _ ':' pa (by rfl), dropWhile_sep _ a _ ':' pa (by rfl)]
  simp only [List.drop_succ_cons, List.drop_zero]
  rw [takeWhile_sep _ b _ ':' pb (by rfl), dropWhile_sep _ b _ ':' pb (by rfl)]
  simp only [List.drop_succ_cons, List.drop_zero]
  rw [takeWhile_sep _ c _ ',' pc (by rfl), dropWhile_sep _ c _ ',' pc (by rfl)]
  simp only [List.drop_succ_cons, List.drop_zero]

theorem wrapInt64_natCast (n : Nat) (h : n < 2 ^ 63) : F64.wrapInt64 (n : Int) = n := by
  unfold F64.wrapInt64
  have h2 : (n : Int) < 2 ^ 63 := by exact_mod_cast h
  omega

/-- Decoding the time code of a duration below `2^23` seconds: the float64
of its whole seconds plus the float64 of its whole milliseconds over `1000.0`. -/
theorem decodeCode_formatTime (impl : F64 → Int) (d : Nat) (hd : d < 2 ^ 23 * 1000000000) :
    decodeCode (formatTime impl (d : Int)) =
      F64.add (F64.ofInt ((d / 1000000000 : Nat) : Int))
        (F64.div (F64.ofInt ((d / 1000000 % 1000 : Nat) : Int)) (F64.ofInt 1000)) := by
  rw [formatTime_natCast impl d hd]
  unfold decodeCode
  rw [splitCode_fields _ _ _ _ (fmtInt_all_digits _ _) (fmtInt_all_digits _ _)
    (fmtInt_all_digits _ _)]
  unfold parseTimeToSeconds
  have hw : d / 1000000000 < 2 ^ 23 := by omega
  simp only
  rw [Atoi_fmtInt _ _ (by omega), Atoi_fmtInt _ _ (by omega), Atoi_fmtInt _ _ (by omega),
    Atoi_fmtInt _ _ (by omega)]
  have e : ((d / 1000000000 / 3600 : Nat) : Int) * 3600 + ((d / 1000000000 % 3600 / 60 : Nat) : Int) * 60
      + ((d / 1000000000 % 60 : Nat) : Int) = ((d / 1000000000 : Nat) : Int) := by
    omega
  rw [e, wrapInt64_natCast _ (by omega)]

/-! ## The conversion of seconds to a duration -/

/-- A grid point has a significand below `2^53`. -/
theorem onGrid_lt (k : Nat) (h : F64.OnGrid k) : ∃ m t : Nat, m < 2 ^ 53 ∧ k = m * 2 ^ t := by
  obtain ⟨m, t, hm, rfl⟩ := h
  rcases Nat.lt_or_ge m (2 ^ 53) with h1 | h1
  · exact ⟨m, t, h1, rfl⟩
  · have e : m = 2 ^ 53 := le_antisymm hm h1
    refine ⟨2 ^ 52, t + 1, by norm_num, ?_⟩
    rw [e, pow_succ]
    ring

theorem lt_ones (m t N : Nat) (ht : t ≤ 1074) (h : m < N * 2 ^ (1074 - t)) :
    m * 2 ^ t < N * F64.one := by
  have e1 : F64.one = 2 ^ (1074 - t) * 2 ^ t := by
    rw [F64.one_split (1074 - t) t (by omega)]
  have hpos : 0 < 2 ^ t := by
    apply Nat.pow_pos
    norm_num
  rw [e1, ← Nat.mul_assoc]
  exact Nat.mul_lt_mul_of_pos_right h hpos

theorem isNonnegBelow_of (m t N : Nat) (hm : m ≤ 2 ^ 53) (ht : t ≤ 1074)
    (h : m < N * 2 ^ (1074 - t)) : F64.IsNonnegBelow N (F64.fin false (m * 2 ^ t)) :=
  ⟨Or.inl rfl, F64.onGrid_mul_pow m t hm, lt_ones m t N ht h⟩

/-- The gap from a float64 `k` below `2^23` to the next whole number of seconds
is more than `2^-53` of `k`. -/
theorem gap_to_next_second (k : Nat) (hx : F64.OnGrid k) (hk : k < 2 ^ 23 * F64.one) :
    (2 ^ 53 + 1) * k < 2 ^ 53 * ((k / F64.one + 1) * F64.one) := by
  have hone := F64.one_pos
  have hlt : k < (k / F64.one + 1) * F64.one := by
    have := Nat.lt_div_mul_add hone (a := k)
    calc k < k / F64.one * F64.one + F64.one := this
      _ = (k / F64.one + 1) * F64.one := by ring
  obtain ⟨m, t, hm, rfl⟩ := onGrid_lt k hx
  generalize hw : m * 2 ^ t / F64.one = w at hlt ⊢
  rcases Nat.lt_or_ge 1074 t with ht | ht
  · -- a multiple of one: a whole number of seconds
    obtain ⟨e, rfl⟩ := Nat.exists_eq_add_of_le (le_of_lt ht)
    have e1 : m * 2 ^ (1074 + e) = m * 2 ^ e * F64.one := by
      rw [F64.one_eq, pow_add]
      ring
    rw [e1] at hk ⊢
    have h3 : m * 2 ^ e < 2 ^ 23 := Nat.lt_of_mul_lt_mul_right hk
    have h4 : m * 2 ^ e * F64.one / F64.one = m * 2 ^ e := Nat.mul_div_cancel _ hone
    rw [e1, h4] at hw
    subst hw
    nlinarith
  · obtain ⟨e, he⟩ := Nat.exists_eq_add_of_le ht
    have e1 : F64.one = 2 ^ e * 2 ^ t := by
      rw [F64.one_eq, he, pow_add]
      ring
    have hpos : 0 < 2 ^ t := by
      apply Nat.pow_pos
      norm_num
    rw [e1] at hlt ⊢
    have h5 : m < (w + 1) * 2 ^ e := by
      have h6 : m * 2 ^ t < (w + 1) * 2 ^ e * 2 ^ t := by
        calc m * 2 ^ t < (w + 1) * (2 ^ e * 2 ^ t) := hlt
          _ = (w + 1) * 2 ^ e * 2 ^ t := by ring
      exact Nat.lt_of_mul_lt_mul_right h6
    have h7 : (2 ^ 53 + 1) * m < 2 ^ 53 * ((w + 1) * 2 ^ e) := by omega
    calc (2 ^ 53 + 1) * (m * 2 ^ t) = (2 ^ 53 + 1) * m * 2 ^ t := by ring
      _ < 2 ^ 53 * ((w + 1) * 2 ^ e) * 2 ^ t := Nat.mul_lt_mul_of_pos_right h7 hpos
      _ = 2 ^ 53 * ((w + 1) * (2 ^ e * 2 ^ t)) := by ring

/-- The duration `generateSRT` derives from a non-negative float64 below `2^23`
seconds: the float64 product with `1e9`, truncated. -/
theorem toDuration_fin (impl : F64 → Int) (k : Nat) (hk : k < 2 ^ 23 * F64.one) :
    toDuration impl (F64.fin false k)
        = ((F64.roundUnits (k * (1000000000 * F64.one)) F64.one / F64.one : Nat) : Int)
      ∧ F64.roundUnits (k * (1000000000 * F64.one)) F64.one
        ≤ 2 ^ 23 * 1000000000 * F64.one := by
  have hone := F64.one_pos
  have hr : F64.roundUnits (k * (1000000000 * F64.one)) F64.one
      ≤ 2 ^ 23 * 1000000000 * F64.one := by
    apply F64.roundUnits_le _ _ _ hone (F64.onGrid_mul_one _ (by norm_num))
    calc k * (1000000000 * F64.one) ≤ 2 ^ 23 * F64.one * (1000000000 * F64.one) :=
          Nat.mul_le_mul_right _ (le_of_lt hk)
      _ = 2 ^ 23 * 1000000000 * F64.one * F64.one := by ring
  refine ⟨?_, hr⟩
  unfold toDuration
  rw [ofInt_billion, F64.mul_fin_false _ _ (F64.le_maxFinite _ _ (by norm_num) hr)]
  apply F64.toInt64_fin_false
  have h2 : F64.roundUnits (k * (1000000000 * F64.one)) F64.one / F64.one
      ≤ 2 ^ 23 * 1000000000 := by
    calc F64.roundUnits (k * (1000000000 * F64.one)) F64.one / F64.one
        ≤ 2 ^ 23 * 1000000000 * F64.one / F64.one := Nat.div_le_div_right hr
      _ = 2 ^ 23 * 1000000000 := Nat.mul_div_cancel _ hone
  omega

/-- A whole number of nanoseconds not above `x * 1e9` is not above the duration. -/
theorem le_duration (k N : Nat) (hN : N ≤ 2 ^ 53) (h : N * F64.one ≤ k * 1000000000) :
    N ≤ F64.roundUnits (k * (1000000000 * F64.one)) F64.one / F64.one := by
  have hone := F64.one_pos
  rw [Nat.le_div_iff_mul_le hone]
  apply F64.le_roundUnits _ _ _ hone (F64.onGrid_mul_one N hN)
  calc N * F64.one * F64.one ≤ k * 1000000000 * F64.one := Nat.mul_le_mul_right _ h
    _ = k * (1000000000 * F64.one) := by ring

/-- A whole number of nanoseconds not below `x * 1e9` is not below the product. -/
theorem product_le (k N : Nat) (hN : N ≤ 2 ^ 53) (h : k * 1000000000 ≤ N * F64.one) :
    F64.roundUnits (k * (1000000000 * F64.one)) F64.one ≤ N * F64.one := by
  have hone := F64.one_pos
  apply F64.roundUnits_le _ _ _ hone (F64.onGrid_mul_one N hN)
  calc k * (1000000000 * F64.one) = k * 1000000000 * F64.one := by ring
    _ ≤ N * F64.one * F64.one := Nat.mul_le_mul_right _ h

/-- The whole seconds of the duration are the whole seconds of `x`. -/
theorem duration_whole_seconds (k : Nat) (hx : F64.OnGrid k) (hk : k < 2 ^ 23 * F64.one) :
    F64.roundUnits (k * (1000000000 * F64.one)) F64.one / F64.one / 1000000000
      = k / F64.one := by
  have hone := F64.one_pos
  have hw : k / F64.one < 2 ^ 23 := by
    rw [Nat.div_lt_iff_lt_mul hone]
    exact hk
  have hgap := gap_to_next_second k hx hk
  have hfloor : k / F64.one * F64.one ≤ k := Nat.div_mul_le_self k F64.one
  have hlt : k < (k / F64.one + 1) * F64.one := by
    have := Nat.lt_div_mul_add hone (a := k)
    calc k < k / F64.one * F64.one + F64.one := this
      _ = (k / F64.one + 1) * F64.one := by ring
  generalize k / F64.one = w at hw hgap hfloor hlt
  have hlo : w * 1000000000
      ≤ F64.roundUnits (k * (1000000000 * F64.one)) F64.one / F64.one := by
    apply le_duration k _ (by omega)
    calc w * 1000000000 * F64.one = w * F64.one * 1000000000 := by ring
      _ ≤ k * 1000000000 := Nat.mul_le_mul_right _ hfloor
  have hhi : F64.roundUnits (k * (1000000000 * F64.one)) F64.one
      < (w + 1) * 1000000000 * F64.one := by
    apply F64.roundUnits_lt _ _ _ (F64.onGrid_mul_one _ (by omega))
    · have h1 : k + 1 ≤ (w + 1) * F64.one := hlt
      have h2 : (k + 1) * (1000000000 * F64.one)
          ≤ (w + 1) * F64.one * (1000000000 * F64.one) := Nat.mul_le_mul_right _ h1
      have e2 : (w + 1) * 1000000000 * F64.one * F64.one
          = (w + 1) * F64.one * (1000000000 * F64.one) := by ring
      rw [e2]
      nlinarith
    · calc (2 ^ 53 + 1) * (k * (1000000000 * F64.one))
          = (2 ^ 53 + 1) * k * (1000000000 * F64.one) := by ring
        _ < 2 ^ 53 * ((w + 1) * F64.one) * (1000000000 * F64.one) :=
            Nat.mul_lt_mul_of_pos_right hgap (Nat.mul_pos (by norm_num) hone)
        _ = 2 ^ 53 * ((w + 1) * 1000000000 * F64.one * F64.one) := by ring
  have hhi2 : F64.roundUnits (k * (1000000000 * F64.one)) F64.one / F64.one
      < (w + 1) * 1000000000 := by
    rw [Nat.div_lt_iff_lt_mul hone]
    exact hhi
  omega

/-- A zero of either sign converts to the duration zero. -/
theorem toDuration_zero (impl : F64 → Int) (s : Bool) : toDuration impl (F64.fin s 0) = 0 := by
  unfold toDuration
  rw [ofInt_billion]
  unfold F64.mul F64.pack
  simp only [Nat.zero_mul, roundUnits_zero _ F64.one_pos, Nat.not_lt_zero, if_false]
  unfold F64.toInt64
  simp only [Nat.zero_div]
  cases s <;> simp

theorem toDuration_congr (impl impl2 : F64 → Int) (x : F64)
    (h : F64.inInt64 (F64.mul x (F64.ofInt 1000000000)) = true) :
    toDuration impl x = toDuration impl2 x :=
  toInt64_congr impl impl2 _ h

set_option maxRecDepth 100000 in
theorem code_of_literal (impl : F64 → Int) (num den : Nat)
    (h1 : F64.inInt64 (F64.mul (F64.ofDecimal num den) (F64.ofInt 1000000000)) = true)
    (h2 : F64.inInt64 (Seconds (toDuration F64.amd64 (F64.ofDecimal num den))) = true) :
    formatTime impl (toDuration impl (F64.ofDecimal num den))
      = formatTime F64.amd64 (toDuration F64.amd64 (F64.ofDecimal num den)) := by
  rw [toDuration_congr impl F64.amd64 _ h1, formatTime_congr impl F64.amd64 _ h2]

set_option maxRecDepth 100000 in
theorem demo_codes_amd64 :
    formatTime F64.amd64 (toDuration F64.amd64 (F64.ofDecimal 0 1)) = "00:00:00,000".toList
    ∧ formatTime F64.amd64 (toDuration F64.amd64 (F64.ofDecimal 35 10)) = "00:00:03,500".toList
    ∧ formatTime F64.amd64 (toDuration F64.amd64 (F64.ofDecimal 72 10)) = "00:00:07,200".toList
    ∧ formatTime F64.amd64 (toDuration F64.amd64 (F64.ofDecimal 118 10)) = "00:00:11,800".toList
    ∧ formatTime F64.amd64 (toDuration F64.amd64 (F64.ofDecimal 153 10)) = "00:00:15,300".toList
    ∧ formatTime F64.amd64 (toDuration F64.amd64 (F64.ofDecimal 18 1)) = "00:00:18,000".toList := by
  decide!

set_option maxRecDepth 100000 in
theorem demo_codes (impl : F64 → Int) :
    formatTime impl (toDuration impl (F64.ofDecimal 0 1)) = "00:00:00,000".toList
    ∧ formatTime impl (toDuration impl (F64.ofDecimal 35 10)) = "00:00:03,500".toList
    ∧ formatTime impl (toDuration impl (F64.ofDecimal 72 10)) = "00:00:07,200".toList
    ∧ formatTime impl (toDuration impl (F64.ofDecimal 118 10)) = "00:00:11,800".toList
    ∧ formatTime impl (toDuration impl (F64.ofDecimal 153 10)) = "00:00:15,300".toList
    ∧ formatTime impl (toDuration impl (F64.ofDecimal 18 1)) = "00:00:18,000".toList := by
  rw [code_of_literal impl 0 1 (by decide!) (by decide!),
    code_of_literal impl 35 10 (by decide!) (by decide!),
    code_of_literal impl 72 10 (by decide!) (by decide!),
    code_of_literal impl 118 10 (by decide!) (by decide!),
    code_of_literal impl 153 10 (by decide!) (by decide!),
    code_of_literal impl 18 1 (by decide!) (by decide!)]
  exact demo_codes_amd64

set_option maxRecDepth 100000 in
theorem formatTime_zero_and_3661 (impl : F64 → Int) :
    formatTime impl (toDuration impl (F64.ofDecimal 0 1)) = "00:00:00,000".toList
    ∧ formatTime impl (toDuration impl (F64.ofDecimal 36615 10)) = "01:01:01,500".toList := by
  rw [code_of_literal impl 0 1 (by decide!) (by decide!),
    code_of_literal impl 36615 10 (by decide!) (by decide!)]
  decide!

/-- The case of a non-negative sign bit of `C10_fields_truncate`. -/
theorem fields_truncate_fin (impl : F64 → Int) (k : Nat) (hx : F64.OnGrid k)
    (hk : k < 2 ^ 23 * F64.one) :
    ∃ d : Nat, toDuration impl (F64.fin false k) = (d : Int)
      ∧ d / 1000000000 = k / F64.one
      ∧ formatTime impl (toDuration impl (F64.fin false k))
        = fmtInt 2 ((k / F64.one / 3600 : Nat) : Int)
          ++ ':' :: fmtInt 2 ((k / F64.one % 3600 / 60 : Nat) : Int)
          ++ ':' :: fmtInt 2 ((k / F64.one % 60 : Nat) : Int)
          ++ ',' :: fmtInt 3 ((d % 1000000000 / 1000000 : Nat) : Int) := by
  obtain ⟨hd, -⟩ := toDuration_fin impl k hk
  have hw := duration_whole_seconds k hx hk
  have hone := F64.one_pos
  have hwlt : k / F64.one < 2 ^ 23 := by
    rw [Nat.div_lt_iff_lt_mul hone]
    exact hk
  generalize F64.roundUnits (k * (1000000000 * F64.one)) F64.one / F64.one = d at hd hw
  refine ⟨d, hd, hw, ?_⟩
  have hdlt : d < 2 ^ 23 * 1000000000 := by omega
  rw [hd, formatTime_natCast impl d hdlt, hw]
  have e : d / 1000000 % 1000 = d % 1000000000 / 1000000 := by omega
  rw [e]

/-! ## The rounding errors of a decoded time code -/

theorem ceil_mul_ge (x c : Nat) (hc : 0 < c) : x ≤ (x + c - 1) / c * c := by
  have h := Nat.lt_div_mul_add hc (a := x + c - 1)
  omega

/-- The float64 `float64(ms) / 1000.0` for `ms < 1000` is within `2^-53` of
`ms / 1000`. -/
theorem millis_bounds (ms : Nat) (hms : ms < 1000) :
    1000 * 2 ^ 53 * F64.roundUnits (ms * F64.one * F64.one) (1000 * F64.one)
        ≤ (ms * 2 ^ 53 + 999) * F64.one
      ∧ ms * 2 ^ 53 * F64.one
        ≤ 1000 * 2 ^ 53 * F64.roundUnits (ms * F64.one * F64.one) (1000 * F64.one)
          + 999 * F64.one := by
  have hone := F64.one_pos
  have hq : 0 < 1000 * F64.one := Nat.mul_pos (by norm_num) hone
  constructor
  · have h1 := F64.roundUnits_le_scaled (ms * F64.one * F64.one) (1000 * F64.one)
      ((ms * 2 ^ 53 + 999) / 1000) 53 hq (by norm_num) (by omega) (by
        have h2 : 2 ^ 53 * ms ≤ (ms * 2 ^ 53 + 999) / 1000 * 1000 := by omega
        calc 2 ^ 53 * (ms * F64.one * F64.one) = 2 ^ 53 * ms * (F64.one * F64.one) := by ring
          _ ≤ (ms * 2 ^ 53 + 999) / 1000 * 1000 * (F64.one * F64.one) :=
              Nat.mul_le_mul_right _ h2
          _ = (ms * 2 ^ 53 + 999) / 1000 * F64.one * (1000 * F64.one) := by ring)
    have h3 : (ms * 2 ^ 53 + 999) / 1000 * 1000 ≤ ms * 2 ^ 53 + 999 := Nat.div_mul_le_self _ _
    calc 1000 * 2 ^ 53 * F64.roundUnits (ms * F64.one * F64.one) (1000 * F64.one)
        = 1000 * (2 ^ 53 * F64.roundUnits (ms * F64.one * F64.one) (1000 * F64.one)) := by ring
      _ ≤ 1000 * ((ms * 2 ^ 53 + 999) / 1000 * F64.one) := Nat.mul_le_mul_left _ h1
      _ = (ms * 2 ^ 53 + 999) / 1000 * 1000 * F64.one := by ring
      _ ≤ (ms * 2 ^ 53 + 999) * F64.one := Nat.mul_le_mul_right _ h3
  · have h1 := F64.le_roundUnits_scaled (ms * F64.one * F64.one) (1000 * F64.one)
      (ms * 2 ^ 53 / 1000) 53 hq (by norm_num) (by omega) (by
        have h2 : ms * 2 ^ 53 / 1000 * 1000 ≤ 2 ^ 53 * ms := by omega
        calc ms * 2 ^ 53 / 1000 * F64.one * (1000 * F64.one)
            = ms * 2 ^ 53 / 1000 * 1000 * (F64.one * F64.one) := by ring
          _ ≤ 2 ^ 53 * ms * (F64.one * F64.one) := Nat.mul_le_mul_right _ h2
          _ = 2 ^ 53 * (ms * F64.one * F64.one) := by ring)
    have h3 : ms * 2 ^ 53 ≤ 1000 * (ms * 2 ^ 53 / 1000) + 999 := by omega
    calc ms * 2 ^ 53 * F64.one ≤ (1000 * (ms * 2 ^ 53 / 1000) + 999) * F64.one :=
          Nat.mul_le_mul_right _ h3
      _ = 1000 * (ms * 2 ^ 53 / 1000 * F64.one) + 999 * F64.one := by ring
      _ ≤ 1000 * (2 ^ 53 * F64.roundUnits (ms * F64.one * F64.one) (1000 * F64.one))
          + 999 * F64.one := by
        apply Nat.add_le_add_right
        exact Nat.mul_le_mul_left _ h1
      _ = 1000 * 2 ^ 53 * F64.roundUnits (ms * F64.one * F64.one) (1000 * F64.one)
          + 999 * F64.one := by ring

/-- The float64 sum `float64(w) + a` for `w < 2^23` whole seconds and a fraction
`a ≤ 1` is within `2^-30` of `w + a`. -/
theorem sum_bounds (w a : Nat) (hw : w < 2 ^ 23) (ha : a ≤ F64.one) :
    2 ^ 30 * F64.roundUnits (w * F64.one + a) 1 < 2 ^ 30 * (w * F64.one + a) + F64.one
      ∧ 2 ^ 30 * (w * F64.one + a) < 2 ^ 30 * F64.roundUnits (w * F64.one + a) 1 + F64.one := by
  have hone := F64.one_pos
  constructor
  · have hc := ceil_mul_ge (2 ^ 30 * a) F64.one hone
    have hA : (2 ^ 30 * a + F64.one - 1) / F64.one ≤ 2 ^ 30 := by
      have h5 : 2 ^ 30 * a + F64.one - 1 < (2 ^ 30 + 1) * F64.one := by omega
      have := (Nat.div_lt_iff_lt_mul hone).mpr h5
      omega
    have h3 : (2 ^ 30 * a + F64.one - 1) / F64.one * F64.one ≤ 2 ^ 30 * a + F64.one - 1 :=
      Nat.div_mul_le_self _ _
    have h1 := F64.roundUnits_le_scaled (w * F64.one + a) 1
      (w * 2 ^ 30 + (2 ^ 30 * a + F64.one - 1) / F64.one) 30 (by norm_num) (by norm_num)
      (by omega) (by
        have e : (w * 2 ^ 30 + (2 ^ 30 * a + F64.one - 1) / F64.one) * F64.one * 1
            = 2 ^ 30 * (w * F64.one) + (2 ^ 30 * a + F64.one - 1) / F64.one * F64.one := by ring
        rw [e]
        omega)
    have e : (w * 2 ^ 30 + (2 ^ 30 * a + F64.one - 1) / F64.one) * F64.one
        = 2 ^ 30 * (w * F64.one) + (2 ^ 30 * a + F64.one - 1) / F64.one * F64.one := by ring
    rw [e] at h1
    omega
  · have h3 : 2 ^ 30 * a / F64.one * F64.one ≤ 2 ^ 30 * a := Nat.div_mul_le_self _ _
    have h4 := Nat.lt_div_mul_add hone (a := 2 ^ 30 * a)
    have hA : 2 ^ 30 * a / F64.one ≤ 2 ^ 30 := by
      have h5 : 2 ^ 30 * a ≤ 2 ^ 30 * F64.one := Nat.mul_le_mul_left _ ha
      calc 2 ^ 30 * a / F64.one ≤ 2 ^ 30 * F64.one / F64.one := Nat.div_le_div_right h5
        _ = 2 ^ 30 := Nat.mul_div_cancel _ hone
    have e : (w * 2 ^ 30 + 2 ^ 30 * a / F64.one) * F64.one
        = 2 ^ 30 * (w * F64.one) + 2 ^ 30 * a / F64.one * F64.one := by ring
    have h1 := F64.le_roundUnits_scaled (w * F64.one + a) 1
      (w * 2 ^ 30 + 2 ^ 30 * a / F64.one) 30 (by norm_num) (by norm_num) (by omega) (by
        rw [Nat.mul_one, e]
        omega)
    rw [e] at h1
    omega

/-- The float64 `float64(w) + float64(ms)/1000.0` that `parseTimeToSeconds`
computes, for `w < 2^23` and `ms < 1000`, is finite and within one nanosecond
of `w + ms/1000`. -/
theorem timeValue_close (w ms : Nat) (hw : w < 2 ^ 23) (hms : ms < 1000) :
    F64.IsNonnegFinite
        (F64.add (F64.ofInt (w : Int)) (F64.div (F64.ofInt (ms : Int)) (F64.ofInt 1000)))
      ∧ |F64.toRat (F64.add (F64.ofInt (w : Int)) (F64.div (F64.ofInt (ms : Int)) (F64.ofInt 1000)))
          - ((w : ℚ) + (ms : ℚ) / 1000)| < 1 / 1000000000 := by
  have hone := F64.one_pos
  obtain ⟨hm1, hm2⟩ := millis_bounds ms hms
  have ha : F64.roundUnits (ms * F64.one * F64.one) (1000 * F64.one) ≤ F64.one := by
    have : 1000 * 2 ^ 53 * F64.roundUnits (ms * F64.one * F64.one) (1000 * F64.one)
        ≤ 1000 * 2 ^ 53 * F64.one := by
      have h5 : (ms * 2 ^ 53 + 999) * F64.one ≤ 1000 * 2 ^ 53 * F64.one :=
        Nat.mul_le_mul_right _ (by omega)
      exact le_trans hm1 h5
    exact Nat.le_of_mul_le_mul_left this (by norm_num)
  rw [F64.ofInt_natCast w (by omega), F64.ofInt_natCast ms (by omega), ofInt_thousand,
    F64.div_fin_false _ _ (by omega) (F64.le_maxFinite _ 1 (by norm_num) (by omega))]
  generalize F64.roundUnits (ms * F64.one * F64.one) (1000 * F64.one) = a at hm1 hm2 ha
  obtain ⟨hs1, hs2⟩ := sum_bounds w a hw ha
  have hkv : F64.roundUnits (w * F64.one + a) 1 ≤ (w + 1) * F64.one := by
    apply F64.roundUnits_le _ _ _ (by norm_num) (F64.onGrid_mul_one _ (by omega))
    have e : (w + 1) * F64.one * 1 = w * F64.one + F64.one := by ring
    rw [e]
    omega
  rw [F64.add_fin_false _ _ (F64.le_maxFinite _ (w + 1) (by omega) hkv)]
  generalize F64.roundUnits (w * F64.one + a) 1 = kv at hs1 hs2
  refine ⟨rfl, ?_⟩
  rw [toRat_fin_false]
  have honeq : (0 : ℚ) < (F64.one : ℚ) := by exact_mod_cast hone
  have q3 : 1000 * 2 ^ 53 * (a : ℚ) ≤ ((ms : ℚ) * 2 ^ 53 + 999) * (F64.one : ℚ) := by
    exact_mod_cast hm1
  have q4 : (ms : ℚ) * 2 ^ 53 * (F64.one : ℚ)
      ≤ 1000 * 2 ^ 53 * (a : ℚ) + 999 * (F64.one : ℚ) := by exact_mod_cast hm2
  have q5 : 2 ^ 30 * (kv : ℚ) < 2 ^ 30 * ((w : ℚ) * (F64.one : ℚ) + (a : ℚ)) + (F64.one : ℚ) := by
    exact_mod_cast hs1
  have q6 : 2 ^ 30 * ((w : ℚ) * (F64.one : ℚ) + (a : ℚ)) < 2 ^ 30 * (kv : ℚ) + (F64.one : ℚ) := by
    exact_mod_cast hs2
  have e : (kv : ℚ) / (F64.one : ℚ) - ((w : ℚ) + (ms : ℚ) / 1000)
      = ((kv : ℚ) - ((w : ℚ) * (F64.one : ℚ) + (ms : ℚ) * (F64.one : ℚ) / 1000))
        / (F64.one : ℚ) := by
    field_simp
    ring
  rw [e, abs_lt]
  constructor
  · rw [lt_div_iff₀ honeq]
    norm_num at q3 q4 q5 q6 ⊢
    nlinarith
  · rw [div_lt_iff₀ honeq]
    norm_num at q3 q4 q5 q6 ⊢
    nlinarith

/-- The float64 value of a time code `HH:MM:SS,mmm` is finite and within one
nanosecond of `h*3600 + m*60 + s + ms/1000`. -/
theorem Stamp.value_close (t : Stamp) :
    F64.IsNonnegFinite t.value
      ∧ |F64.toRat t.value
          - (((t.hours * 3600 + t.minutes * 60 + t.seconds : Nat) : ℚ) + (t.millis : ℚ) / 1000)|
        < 1 / 1000000000 := by
  unfold Stamp.value
  apply timeValue_close
  · unfold Stamp.hours Stamp.minutes Stamp.seconds
    have := t.h1.isLt
    have := t.h2.isLt
    have := t.m1.isLt
    have := t.m2.isLt
    have := t.s1.isLt
    have := t.s2.isLt
    omega
  · unfold Stamp.millis
    have := t.f1.isLt
    have := t.f2.isLt
    have := t.f3.isLt
    omega

/-- The duration lies within one nanosecond below and one millisecond above the
start of its millisecond, measured on `x * 1e9`. -/
theorem product_in_millisecond (k : Nat) (hk : k < 2 ^ 23 * F64.one) :
    k * 1000000000
        < (F64.roundUnits (k * (1000000000 * F64.one)) F64.one / F64.one / 1000000 + 1)
          * 1000000 * F64.one
      ∧ F64.roundUnits (k * (1000000000 * F64.one)) F64.one / F64.one / 1000000
          * 1000000 * F64.one
        < k * 1000000000 + F64.one := by
  have hone := F64.one_pos
  obtain ⟨-, hr⟩ := toDuration_fin F64.amd64 k hk
  have hD : F64.roundUnits (k * (1000000000 * F64.one)) F64.one / F64.one
      ≤ 2 ^ 23 * 1000000000 := by
    calc F64.roundUnits (k * (1000000000 * F64.one)) F64.one / F64.one
        ≤ 2 ^ 23 * 1000000000 * F64.one / F64.one := Nat.div_le_div_right hr
      _ = 2 ^ 23 * 1000000000 := Nat.mul_div_cancel _ hone
  have hle := le_duration k
  have hpr := product_le k
  have hdiv : F64.roundUnits (k * (1000000000 * F64.one)) F64.one / F64.one * F64.one
      ≤ F64.roundUnits (k * (1000000000 * F64.one)) F64.one := Nat.div_mul_le_self _ _
  generalize F64.roundUnits (k * (1000000000 * F64.one)) F64.one = r at hr hD hle hpr hdiv
  generalize hd : r / F64.one = d at hD hle hdiv
  constructor
  · by_contra hcon
    have h1 := hle ((d / 1000000 + 1) * 1000000) (by omega) (not_lt.mp hcon)
    omega
  · by_contra hcon
    have h0 : k * 1000000000 + F64.one ≤ d / 1000000 * 1000000 * F64.one := not_lt.mp hcon
    have hM : 1 ≤ d / 1000000 * 1000000 := by
      by_contra hz
      have hz2 : d / 1000000 * 1000000 = 0 := by omega
      rw [hz2] at h0
      omega
    have e : d / 1000000 * 1000000 * F64.one
        = (d / 1000000 * 1000000 - 1) * F64.one + F64.one := by
      have : d / 1000000 * 1000000 = (d / 1000000 * 1000000 - 1) + 1 := by omega
      conv_lhs => rw [this]
      ring
    have h1 := hpr (d / 1000000 * 1000000 - 1) (by omega) (by omega)
    have h2 : d * F64.one ≤ (d / 1000000 * 1000000 - 1) * F64.one := le_trans hdiv h1
    have h3 : d ≤ d / 1000000 * 1000000 - 1 := Nat.le_of_mul_le_mul_right h2 hone
    omega

/-- The case of a non-negative sign bit of `C4_roundtrip_within`. -/
theorem roundtrip_within_fin (impl : F64 → Int) (k : Nat) (hx : F64.OnGrid k)
    (hk : k < 2 ^ 23 * F64.one) :
    F64.IsNonnegFinite (decodeCode (formatTime impl (toDuration impl (F64.fin false k))))
    ∧ |F64.toRat (decodeCode (formatTime impl (toDuration impl (F64.fin false k))))
        - F64.toRat (F64.fin false k)| < 1 / 1000 + 1 / 1000000000 := by
  have hone := F64.one_pos
  obtain ⟨hd, -⟩ := toDuration_fin impl k hk
  have hw := duration_whole_seconds k hx hk
  obtain ⟨hp1, hp2⟩ := product_in_millisecond k hk
  have hwlt : k / F64.one < 2 ^ 23 := by
    rw [Nat.div_lt_iff_lt_mul hone]
    exact hk
  generalize F64.roundUnits (k * (1000000000 * F64.one)) F64.one / F64.one = d at hd hw hp1 hp2
  have hdlt : d < 2 ^ 23 * 1000000000 := by omega
  rw [hd, decodeCode_formatTime impl d hdlt]
  have hms : d / 1000000 % 1000 < 1000 := Nat.mod_lt _ (by norm_num)
  have hM : d / 1000000 = 1000 * (d / 1000000000) + d / 1000000 % 1000 := by omega
  rw [hM] at hp1 hp2
  have hsec : d / 1000000000 < 2 ^ 23 := by omega
  generalize d / 1000000000 = w at hp1 hp2 hsec
  generalize d / 1000000 % 1000 = ms at hp1 hp2 hms
  obtain ⟨hm1, hm2⟩ := millis_bounds ms hms
  have ha : F64.roundUnits (ms * F64.one * F64.one) (1000 * F64.one) ≤ F64.one := by
    have : 1000 * 2 ^ 53 * F64.roundUnits (ms * F64.one * F64.one) (1000 * F64.one)
        ≤ 1000 * 2 ^ 53 * F64.one := by
      have h5 : (ms * 2 ^ 53 + 999) * F64.one ≤ 1000 * 2 ^ 53 * F64.one :=
        Nat.mul_le_mul_right _ (by omega)
      exact le_trans hm1 h5
    exact Nat.le_of_mul_le_mul_left this (by norm_num)
  rw [F64.ofInt_natCast w (by omega), F64.ofInt_natCast ms (by omega), ofInt_thousand,
    F64.div_fin_false _ _ (by omega) (F64.le_maxFinite _ 1 (by norm_num) (by omega))]
  generalize F64.roundUnits (ms * F64.one * F64.one) (1000 * F64.one) = a at hm1 hm2 ha
  obtain ⟨hs1, hs2⟩ := sum_bounds w a hsec ha
  have hkv : F64.roundUnits (w * F64.one + a) 1 ≤ (w + 1) * F64.one := by
    apply F64.roundUnits_le _ _ _ (by norm_num) (F64.onGrid_mul_one _ (by omega))
    have e : (w + 1) * F64.one * 1 = w * F64.one + F64.one := by ring
    rw [e]
    omega
  rw [F64.add_fin_false _ _ (F64.le_maxFinite _ (w + 1) (by omega) hkv)]
  generalize F64.roundUnits (w * F64.one + a) 1 = kv at hs1 hs2
  refine ⟨rfl, ?_⟩
  rw [toRat_fin_false, toRat_fin_false, ← sub_div]
  have honeq : (0 : ℚ) < (F64.one : ℚ) := by exact_mod_cast hone
  have q1 : (k : ℚ) * 1000000000
      < (1000 * (w : ℚ) + (ms : ℚ) + 1) * 1000000 * (F64.one : ℚ) := by exact_mod_cast hp1
  have q2 : (1000 * (w : ℚ) + (ms : ℚ)) * 1000000 * (F64.one : ℚ)
      < (k : ℚ) * 1000000000 + (F64.one : ℚ) := by exact_mod_cast hp2
  have q3 : 1000 * 2 ^ 53 * (a : ℚ) ≤ ((ms : ℚ) * 2 ^ 53 + 999) * (F64.one : ℚ) := by
    exact_mod_cast hm1
  have q4 : (ms : ℚ) * 2 ^ 53 * (F64.one : ℚ)
      ≤ 1000 * 2 ^ 53 * (a : ℚ) + 999 * (F64.one : ℚ) := by exact_mod_cast hm2
  have q5 : 2 ^ 30 * (kv : ℚ) < 2 ^ 30 * ((w : ℚ) * (F64.one : ℚ) + (a : ℚ)) + (F64.one : ℚ) := by
    exact_mod_cast hs1
  have q6 : 2 ^ 30 * ((w : ℚ) * (F64.one : ℚ) + (a : ℚ)) < 2 ^ 30 * (kv : ℚ) + (F64.one : ℚ) := by
    exact_mod_cast hs2
  rw [abs_lt]
  constructor
  · rw [lt_div_iff₀ honeq]
    norm_num at q3 q4 q5 q6 ⊢
    nlinarith
  · rw [div_lt_iff₀ honeq]
    norm_num at q3 q4 q5 q6 ⊢
    nlinarith

/-! ## The line scanner -/

theorem utf8Len_append (a b : List Char) : utf8Len (a ++ b) = utf8Len a + utf8Len b := by
  unfold utf8Len
  rw [List.map_append, List.sum_append]

theorem utf8Len_nil : utf8Len [] = 0 := rfl

theorem utf8Len_cons (c : Char) (l : List Char) : utf8Len (c :: l) = c.utf8Size + utf8Len l := by
  unfold utf8Len
  rw [List.map_cons, List.sum_cons]

theorem utf8Len_replicate (n : Nat) (c : Char) :
    utf8Len (List.replicate n c) = n * c.utf8Size := by
  induction n with
  | zero => simp [utf8Len]
  | succ n ih =>
    rw [List.replicate_succ, utf8Len_cons, ih]
    ring

theorem utf8Size_digitChar (n : Nat) (h : n < 10) : (digitChar n).utf8Size = 1 := by
  interval_cases n <;> rfl

/-- A line ended by a line feed, read after the part `cur` of it. -/
theorem scanFrom_line (l rest : List Char) (hl : '\n' ∉ l) : ∀ cur : List Char,
    scanFrom (l ++ '\n' :: rest) cur =
      if MaxScanTokenSize ≤ utf8Len (cur ++ l) then ([], true)
      else (dropCR (cur ++ l) :: (scanFrom rest []).1, (scanFrom rest []).2) := by
  induction l with
  | nil =>
    intro cur
    simp only [List.nil_append, List.append_nil]
    rw [scanFrom, if_pos rfl]
  | cons c l ih =>
    intro cur
    have hc : c ≠ '\n' := fun h => hl (by rw [h]; exact List.mem_cons_self _ _)
    have hl2 : '\n' ∉ l := fun h => hl (List.mem_cons_of_mem _ h)
    rw [List.cons_append, scanFrom, if_neg hc, ih hl2 (cur ++ [c])]
    simp only [List.append_assoc, List.singleton_append]

/-- The last line, not ended by a line feed, read after the part `cur` of it. -/
theorem scanFrom_last (l : List Char) (hl : '\n' ∉ l) : ∀ cur : List Char,
    scanFrom l cur =
      if cur ++ l = [] then ([], false)
      else if MaxScanTokenSize ≤ utf8Len (cur ++ l) then ([], true)
      else ([dropCR (cur ++ l)], false) := by
  induction l with
  | nil =>
    intro cur
    simp only [List.append_nil]
    rw [scanFrom]
  | cons c l ih =>
    intro cur
    have hc : c ≠ '\n' := fun h => hl (by rw [h]; exact List.mem_cons_self _ _)
    have hl2 : '\n' ∉ l := fun h => hl (List.mem_cons_of_mem _ h)
    rw [scanFrom, if_neg hc, ih hl2 (cur ++ [c])]
    simp only [List.append_assoc, List.singleton_append]

theorem scanLines_line (l rest : List Char) (hl : '\n' ∉ l)
    (hfit : utf8Len l < MaxScanTokenSize) :
    scanLines (l ++ '\n' :: rest) = (dropCR l :: (scanLines rest).1, (scanLines rest).2) := by
  unfold scanLines
  rw [scanFrom_line l rest hl [], List.nil_append, if_neg (not_le.mpr hfit)]

theorem scanLines_long (l rest : List Char) (hl : '\n' ∉ l)
    (hlong : MaxScanTokenSize ≤ utf8Len l) :
    scanLines (l ++ '\n' :: rest) = ([], true) := by
  unfold scanLines
  rw [scanFrom_line l rest hl [], List.nil_append, if_pos hlong]

theorem scanLines_last (l : List Char) (hl : '\n' ∉ l) (hne : l ≠ [])
    (hfit : utf8Len l < MaxScanTokenSize) : scanLines l = ([dropCR l], false) := by
  unfold scanLines
  rw [scanFrom_last l hl [], List.nil_append, if_neg hne, if_neg (not_le.mpr hfit)]

theorem scanLines_nil : scanLines [] = ([], false) := rfl

/-! ## White space -/

theorem dropWhile_concat_pos (p : Char → Bool) (c : Char) (hc : p c = true) :
    ∀ m : List Char, (m ++ [c]).dropWhile p
      = if m.dropWhile p = [] then [] else m.dropWhile p ++ [c] := by
  intro m
  induction m with
  | nil => simp [List.dropWhile, hc]
  | cons a m ih =>
    rw [List.cons_append, List.dropWhile_cons, List.dropWhile_cons]
    by_cases ha : p a = true
    · simp only [ha, if_true]
      exact ih
    · simp [ha]

theorem TrimSpace_concat_space (m : List Char) (c : Char) (hc : isSpace c = true) :
    TrimSpace (m ++ [c]) = TrimSpace m := by
  unfold TrimSpace
  rw [dropWhile_concat_pos isSpace c hc m]
  by_cases h : m.dropWhile isSpace = []
  · rw [if_pos h, h]
  · rw [if_neg h, List.rdropWhile_concat, hc]
    simp

theorem TrimSpace_dropCR (l : List Char) : TrimSpace (dropCR l) = TrimSpace l := by
  unfold dropCR
  split_ifs with h
  · have hne : l ≠ [] := by
      intro h0
      rw [h0] at h
      simp at h
    have e := List.dropLast_append_getLast hne
    have hlast : l.getLast hne = '\r' := by
      rw [List.getLast?_eq_getLast _ hne] at h
      exact Option.some.inj h
    rw [hlast] at e
    conv_rhs => rw [← e]
    rw [TrimSpace_concat_space _ '\r' (by decide)]
  · rfl

theorem TrimSpace_ends (a b : Char) (m : List Char) (ha : isSpace a = false)
    (hb : isSpace b = false) : TrimSpace (a :: (m ++ [b])) = a :: (m ++ [b]) := by
  unfold TrimSpace
  rw [List.dropWhile_cons, ha]
  simp only [Bool.false_eq_true, if_false]
  rw [← List.cons_append, List.rdropWhile_concat, hb]
  simp

theorem isDigit_not_space (c : Char) (h : isDigit c = true) : isSpace c = false := by
  unfold isDigit at h
  unfold isSpace
  simp only [Bool.and_eq_true, decide_eq_true_eq] at h
  simp only
  generalize c.toNat = n at h
  have h1 := h.1
  have h2 := h.2
  simp only [Bool.or_eq_false_iff, beq_eq_false_iff_ne, Bool.and_eq_false_iff, decide_eq_false_iff_not]
  omega

theorem mem_TrimSpace (l : List Char) (c : Char) (h : c ∈ TrimSpace l) : c ∈ l := by
  unfold TrimSpace at h
  have h1 : c ∈ l.dropWhile isSpace := (List.rdropWhile_prefix _ _).subset h
  exact (List.dropWhile_suffix _).subset h1

theorem mem_dropCR (l : List Char) (c : Char) (h : c ∈ dropCR l) : c ∈ l := by
  unfold dropCR at h
  split_ifs at h
  · exact List.mem_of_mem_dropLast h
  · exact h

/-! ## The pattern of the line of time codes -/

theorem matchesAt_colon (cs : List Char) (h : matchesAt timeRegex cs = true) : ':' ∈ cs := by
  unfold timeRegex stampPattern at h
  match cs, h with
  | [], h => simp [matchesAt] at h
  | [a], h => simp [matchesAt] at h
  | [a, b], h => simp [matchesAt] at h
  | a :: b :: c :: rest, h =>
    simp only [List.cons_append, matchesAt, Bool.and_eq_true, beq_iff_eq] at h
    rw [h.2.2.1]
    simp

theorem findMatch_none_of_no_colon (l : List Char) (h : ':' ∉ l) : findMatch l = none := by
  induction l with
  | nil => rfl
  | cons c cs ih =>
    unfold findMatch
    have h1 : matchesAt timeRegex (c :: cs) ≠ true := fun hm => h (matchesAt_colon _ hm)
    rw [if_neg h1]
    exact ih (fun hc => h (List.mem_cons_of_mem _ hc))

theorem parseLines_skip (l : GoString) (rest : List GoString)
    (h : findMatch (TrimSpace l) = none) : parseLines (l :: rest) = parseLines rest := by
  rw [parseLines]
  simp [FindStringSubmatch, h]

theorem parseLines_skip_no_colon (l : GoString) (rest : List GoString) (h : ':' ∉ l) :
    parseLines (l :: rest) = parseLines rest :=
  parseLines_skip l rest (findMatch_none_of_no_colon _ (fun hc => h (mem_TrimSpace _ _ hc)))

/-- Decoding the four fields of a time code gives its float64 value. -/
theorem parseTimeToSeconds_stamp (t : Stamp) :
    parseTimeToSeconds [digitChar t.h1, digitChar t.h2] [digitChar t.m1, digitChar t.m2]
      [digitChar t.s1, digitChar t.s2] [digitChar t.f1, digitChar t.f2, digitChar t.f3]
      = t.value := by
  unfold parseTimeToSeconds Stamp.value Stamp.hours Stamp.minutes Stamp.seconds Stamp.millis
  simp only [Atoi_two_digits, Atoi_three_digits]
  have e : ((10 * (t.h1 : Nat) + t.h2 : Nat) : Int) * 3600 + ((10 * (t.m1 : Nat) + t.m2 : Nat) : Int) * 60
      + ((10 * (t.s1 : Nat) + t.s2 : Nat) : Int)
      = (((10 * (t.h1 : Nat) + t.h2) * 3600 + (10 * (t.m1 : Nat) + t.m2) * 60
          + (10 * (t.s1 : Nat) + t.s2) : Nat) : Int) := by
    push_cast
    ring
  rw [e, wrapInt64_natCast _ (by
    have := t.h1.isLt
    have := t.h2.isLt
    have := t.m1.isLt
    have := t.m2.isLt
    have := t.s1.isLt
    have := t.s2.isLt
    omega)]

theorem Stamp.text_digits (t : Stamp) : ∀ c ∈ t.text, isDigit c = true ∨ c = ':' ∨ c = ',' := by
  intro c hc
  unfold Stamp.text at hc
  simp only [List.mem_cons, List.mem_singleton, List.not_mem_nil, or_false] at hc
  rcases hc with h | h | h | h | h | h | h | h | h | h | h | h <;> rw [h]
  all_goals first
    | exact Or.inl (isDigit_digitChar _ (Fin.isLt _))
    | exact Or.inr (Or.inl rfl)
    | exact Or.inr (Or.inr rfl)

theorem findMatch_stampLine (a b : Stamp) :
    FindStringSubmatch (a.text ++ " --> ".toList ++ b.text) =
      some [a.text ++ " --> ".toList ++ b.text,
        [digitChar a.h1, digitChar a.h2], [digitChar a.m1, digitChar a.m2],
        [digitChar a.s1, digitChar a.s2], [digitChar a.f1, digitChar a.f2, digitChar a.f3],
        [digitChar b.h1, digitChar b.h2], [digitChar b.m1, digitChar b.m2],
        [digitChar b.s1, digitChar b.s2], [digitChar b.f1, digitChar b.f2, digitChar b.f3]] := by
  unfold FindStringSubmatch Stamp.text
  have hm : findMatch ([digitChar a.h1, digitChar a.h2, ':', digitChar a.m1, digitChar a.m2, ':',
      digitChar a.s1, digitChar a.s2, ',', digitChar a.f1, digitChar a.f2, digitChar a.f3]
      ++ " --> ".toList ++
      [digitChar b.h1, digitChar b.h2, ':', digitChar b.m1, digitChar b.m2, ':',
      digitChar b.s1, digitChar b.s2, ',', digitChar b.f1, digitChar b.f2, digitChar b.f3])
      = some ([digitChar a.h1, digitChar a.h2, ':', digitChar a.m1, digitChar a.m2, ':',
      digitChar a.s1, digitChar a.s2, ',', digitChar a.f1, digitChar a.f2, digitChar a.f3]
      ++ " --> ".toList ++
      [digitChar b.h1, digitChar b.h2, ':', digitChar b.m1, digitChar b.m2, ':',
      digitChar b.s1, digitChar b.s2, ',', digitChar b.f1, digitChar b.f2, digitChar b.f3]) := by
    simp only [String.toList, List.cons_append, List.nil_append, findMatch, timeRegex,
      stampPattern, matchesAt, isDigit_digitChar _ (Fin.isLt _), beq_self_eq_true,
      Bool.and_self, if_true]
    rfl
  rw [hm]
  rfl

theorem parseLines_stamp (l t : GoString) (rest : List GoString) (a b : Stamp)
    (h : TrimSpace l = a.text ++ " --> ".toList ++ b.text) :
    parseLines (l :: t :: rest)
      = { Start := a.value, End := b.value, Text := TrimSpace t } :: parseLines rest := by
  rw [parseLines, h, findMatch_stampLine]
  simp only [parseTimeToSeconds_stamp]

theorem parseLines_stamp_last (l : GoString) (a b : Stamp)
    (h : TrimSpace l = a.text ++ " --> ".toList ++ b.text) : parseLines [l] = [] := by
  rw [parseLines, h, findMatch_stampLine]

/-! ## Reading complete blocks -/

theorem Block.indexLine_digits (b : Block) : ∀ c ∈ b.indexLine, isDigit c = true := by
  intro c hc
  unfold Block.indexLine at hc
  rw [List.mem_map] at hc
  obtain ⟨d, -, rfl⟩ := hc
  exact isDigit_digitChar _ d.isLt

theorem Block.indexLine_no_newline (b : Block) : '\n' ∉ b.indexLine :=
  fun h => absurd (b.indexLine_digits _ h) (by decide)

theorem Block.indexLine_no_colon (b : Block) : ':' ∉ b.indexLine :=
  fun h => absurd (b.indexLine_digits _ h) (by decide)

theorem Block.utf8Len_indexLine (b : Block) : utf8Len b.indexLine = b.index.length := by
  unfold Block.indexLine
  induction b.index with
  | nil => rfl
  | cons d ds ih =>
    rw [List.map_cons, utf8Len_cons, ih, utf8Size_digitChar _ d.isLt, List.length_cons]
    omega

theorem Stamp.text_no_newline (t : Stamp) : '\n' ∉ t.text := by
  intro h
  rcases t.text_digits _ h with h1 | h1 | h1
  · exact absurd h1 (by decide)
  · exact absurd h1 (by decide)
  · exact absurd h1 (by decide)

theorem Stamp.utf8Len_text (t : Stamp) : utf8Len t.text = 12 := by
  unfold Stamp.text
  simp only [utf8Len_cons, utf8Len_nil, utf8Size_digitChar _ (Fin.isLt _)]
  rfl

theorem Block.stampLine_no_newline (b : Block) : '\n' ∉ b.stampLine := by
  unfold Block.stampLine
  intro h
  rw [List.mem_append, List.mem_append] at h
  rcases h with (h | h) | h
  · exact b.start.text_no_newline h
  · exact absurd h (by decide)
  · exact b.stop.text_no_newline h

theorem Block.utf8Len_stampLine (b : Block) : utf8Len b.stampLine = 29 := by
  unfold Block.stampLine
  rw [utf8Len_append, utf8Len_append, Stamp.utf8Len_text, Stamp.utf8Len_text]
  rfl

theorem Block.stampLine_ne_nil (b : Block) : b.stampLine ≠ [] := by
  unfold Block.stampLine Stamp.text
  simp

theorem Block.TrimSpace_stampLine (b : Block) :
    TrimSpace (dropCR b.stampLine) = b.start.text ++ " --> ".toList ++ b.stop.text := by
  rw [TrimSpace_dropCR]
  unfold Block.stampLine
  have e : b.start.text ++ " --> ".toList ++ b.stop.text
      = digitChar b.start.h1 :: (([digitChar b.start.h2, ':', digitChar b.start.m1,
          digitChar b.start.m2, ':', digitChar b.start.s1, digitChar b.start.s2, ',',
          digitChar b.start.f1, digitChar b.start.f2, digitChar b.start.f3] ++ " --> ".toList
          ++ [digitChar b.stop.h1, digitChar b.stop.h2, ':', digitChar b.stop.m1,
          digitChar b.stop.m2, ':', digitChar b.stop.s1, digitChar b.stop.s2, ',',
          digitChar b.stop.f1, digitChar b.stop.f2]) ++ [digitChar b.stop.f3]) := by
    unfold Stamp.text
    simp
  rw [e]
  exact TrimSpace_ends _ _ _ (isDigit_not_space _ (isDigit_digitChar _ (Fin.isLt _)))
    (isDigit_not_space _ (isDigit_digitChar _ (Fin.isLt _)))

theorem Block.render_append (b : Block) (rest : List Char) :
    b.render ++ rest
      = b.indexLine ++ '\n' :: (b.stampLine ++ '\n' :: (b.text ++ '\n' :: ([] ++ '\n' :: rest))) := by
  unfold Block.render
  simp [List.append_assoc]

/-- The scanner on the index line and the line of time codes of a block. -/
theorem scanLines_block_head (b : Block) (hidx : b.index.length < MaxScanTokenSize)
    (rest : List Char) :
    scanLines (b.indexLine ++ '\n' :: (b.stampLine ++ '\n' :: rest))
      = (dropCR b.indexLine :: dropCR b.stampLine :: (scanLines rest).1, (scanLines rest).2) := by
  rw [scanLines_line _ _ b.indexLine_no_newline (by rw [b.utf8Len_indexLine]; exact hidx),
    scanLines_line _ _ b.stampLine_no_newline (by rw [b.utf8Len_stampLine]; decide)]

theorem scanLines_block (b : Block) (hfit : b.Fits) (rest : List Char) :
    scanLines (b.render ++ rest)
      = (dropCR b.indexLine :: dropCR b.stampLine :: dropCR b.text :: dropCR []
          :: (scanLines rest).1, (scanLines rest).2) := by
  obtain ⟨h1, h2, h3⟩ := hfit
  rw [b.render_append, scanLines_block_head b h3, scanLines_line _ _ h1 h2,
    scanLines_line [] _ (by simp) (by decide)]

theorem parseLines_block (b : Block) (more : List GoString) :
    parseLines (dropCR b.indexLine :: dropCR b.stampLine :: dropCR b.text :: dropCR [] :: more)
      = b.segment :: parseLines more := by
  rw [parseLines_skip_no_colon _ _ (fun h => b.indexLine_no_colon (mem_dropCR _ _ h)),
    parseLines_stamp _ _ _ b.start b.stop b.TrimSpace_stampLine,
    parseLines_skip_no_colon _ _ (fun h => by simp [dropCR] at h), TrimSpace_dropCR]
  rfl

theorem parse_renderBlocks_append (tail : List Char) (bs : List Block)
    (hfit : ∀ b ∈ bs, b.Fits) :
    parseLines (scanLines (renderBlocks bs ++ tail)).1
        = bs.map Block.segment ++ parseLines (scanLines tail).1
      ∧ (scanLines (renderBlocks bs ++ tail)).2 = (scanLines tail).2 := by
  induction bs with
  | nil => exact ⟨rfl, rfl⟩
  | cons b bs ih =>
    obtain ⟨ih1, ih2⟩ := ih (fun x hx => hfit x (List.mem_cons_of_mem _ hx))
    have e : renderBlocks (b :: bs) ++ tail = b.render ++ (renderBlocks bs ++ tail) := by
      simp [renderBlocks, List.append_assoc]
    rw [e, scanLines_block b (hfit b (List.mem_cons_self _ _))]
    simp only [parseLines_block, ih1, ih2, List.map_cons, List.cons_append, and_self]

theorem sampleBlocks_fit : ∀ b ∈ sampleBlocks, b.Fits := by
  intro b hb
  unfold sampleBlocks at hb
  simp only [List.mem_cons, List.mem_singleton, List.not_mem_nil, or_false] at hb
  rcases hb with rfl | rfl
  · exact ⟨by decide, by decide, by decide⟩
  · exact ⟨by decide, by decide, by decide⟩

theorem longBlock_text_long : MaxScanTokenSize ≤ utf8Len longBlock.text := by
  unfold longBlock
  simp only
  rw [utf8Len_replicate]
  decide

theorem longBlock_text_no_newline : '\n' ∉ longBlock.text := by
  unfold longBlock
  simp only
  intro h
  exact absurd (List.eq_of_mem_replicate h) (by decide)

/-- The scanner stops on the text line of `longBlock`, whatever follows it. -/
theorem parse_longBlock (rest : List Char) :
    parseSRTFile (some (longBlock.render ++ rest)) = ([], some ParseError.tooLong) := by
  have hs : scanLines (longBlock.render ++ rest)
      = ([dropCR longBlock.indexLine, dropCR longBlock.stampLine], true) := by
    rw [longBlock.render_append, scanLines_block_head longBlock (by decide),
      scanLines_long _ _ longBlock_text_no_newline longBlock_text_long]
  unfold parseSRTFile
  simp only [hs, if_true]
  rw [parseLines_skip_no_colon _ _ (fun h => longBlock.indexLine_no_colon (mem_dropCR _ _ h)),
    parseLines_stamp_last _ longBlock.start longBlock.stop longBlock.TrimSpace_stampLine]

theorem parse_trailing_head (t : Block) (ht : t.index.length < MaxScanTokenSize) :
    (parseLines (scanLines (t.indexLine ++ '\n' :: t.stampLine)).1 = []
        ∧ (scanLines (t.indexLine ++ '\n' :: t.stampLine)).2 = false)
      ∧ (parseLines (scanLines (t.indexLine ++ '\n' :: (t.stampLine ++ '\n' :: []))).1 = []
        ∧ (scanLines (t.indexLine ++ '\n' :: (t.stampLine ++ '\n' :: []))).2 = false) := by
  have hskip : parseLines [dropCR t.indexLine, dropCR t.stampLine] = [] := by
    rw [parseLines_skip_no_colon _ _ (fun h => t.indexLine_no_colon (mem_dropCR _ _ h)),
      parseLines_stamp_last _ t.start t.stop t.TrimSpace_stampLine]
  constructor
  · rw [scanLines_line _ _ t.indexLine_no_newline (by rw [t.utf8Len_indexLine]; exact ht),
      scanLines_last _ t.stampLine_no_newline t.stampLine_ne_nil
        (by rw [t.utf8Len_stampLine]; decide)]
    exact ⟨hskip, rfl⟩
  · rw [scanLines_block_head t ht, scanLines_nil]
    exact ⟨hskip, rfl⟩

/-! ## The writer -/

theorem writeSRTFile_entriesFrom (impl : F64 → Int) (segs : List Segment) : ∀ i : Nat,
    writeSRTFile impl (entriesFrom impl i segs) = specBlocksFrom impl i segs := by
  induction segs with
  | nil => intro i; rfl
  | cons seg rest ih =>
    intro i
    unfold entriesFrom writeSRTFile specBlocksFrom
    rw [ih (i + 1)]
    congr 1
    unfold entryBlock specBlock
    have e : ((i : Int) + 1) = ((i + 1 : Nat) : Int) := by push_cast; rfl
    simp only [e, fmtInt_zero_natCast]
    simp [List.append_assoc]

/-! ## The name of the audio file -/

theorem TrimSuffix_prefix (s x : GoString) : TrimSuffix s x <+: s := by
  unfold TrimSuffix
  split_ifs
  · exact List.take_prefix _ _
  · exact List.prefix_refl _

/-- Unless the path ends in a separator (or is empty), its extension is the
extension of its base name. -/
theorem Ext_Base (path : GoString) : Ext path = [] ∨ Ext (Base path) = Ext path := by
  rcases List.eq_nil_or_concat path with h | ⟨g, c, h⟩
  · left
    subst h
    rfl
  · rw [List.concat_eq_append] at h
    subst h
    by_cases hc : c = '/'
    · left
      subst hc
      have e : (g ++ ['/']).rtakeWhile (fun x => x != '/') = [] :=
        List.rtakeWhile_concat_neg _ _ _ (by simp)
      unfold Ext
      simp only
      rw [e]
      rfl
    · right
      have hne : g ++ [c] ≠ [] := by simp
      have hstrip : (g ++ [c]).rdropWhile (fun x => x == '/') = g ++ [c] :=
        List.rdropWhile_concat_neg _ _ _ (by simpa using hc)
      have hlast : (g ++ [c]).rtakeWhile (fun x => x != '/')
          = g.rtakeWhile (fun x => x != '/') ++ [c] :=
        List.rtakeWhile_concat_pos _ _ _ (by simpa using hc)
      have hbase : Base (g ++ [c]) = (g ++ [c]).rtakeWhile (fun x => x != '/') := by
        unfold Base
        simp only
        rw [if_neg hne, hstrip, hlast, if_neg (by simp)]
      rw [hbase]
      unfold Ext
      simp only
      rw [List.rtakeWhile_idempotent]

/-- The base name with its extension stripped is the start of the name
`generateDemoTranscription` computes. -/
theorem stripped_base_prefix (path : GoString) :
    TrimSuffix (Base path) (Ext (Base path)) <+: TrimSuffix (Base path) (Ext path) := by
  rcases Ext_Base path with h | h
  · rw [h]
    have e : TrimSuffix (Base path) [] = Base path := by
      unfold TrimSuffix
      simp
    rw [e]
    exact TrimSuffix_prefix _ _
  · rw [h]

/-! ## Backend selection -/

/-- The loop over the candidates returns the first one that passes the check. -/
theorem firstPassing_eq_find (ok : GoString → Bool) (ps : List GoString) :
    firstPassing ok ps = ps.find? ok := by
  induction ps with
  | nil => rfl
  | cons p ps ih =>
    unfold firstPassing
    rw [List.find?_cons]
    by_cases h : ok p = true
    · simp [h]
    · simp [h, ih]

/-- The two loops of `findWhisperExecutable`, candidate by candidate. -/
theorem findWhisperExecutable_chain (env : Env) :
    findWhisperExecutable env =
      if env.stat "./whisper.cpp/build/bin/whisper-cli".toList then
        "./whisper.cpp/build/bin/whisper-cli".toList
      else if env.stat "./whisper.cpp/build/bin/main".toList then
        "./whisper.cpp/build/bin/main".toList
      else if env.stat "./whisper.cpp/main".toList then "./whisper.cpp/main".toList
      else if (env.lookPath "whisper.cpp".toList).isSome then "whisper.cpp".toList
      else if (env.lookPath "whisper-cli".toList).isSome then "whisper-cli".toList
      else if (env.lookPath "/usr/local/bin/whisper.cpp".toList).isSome then
        "/usr/local/bin/whisper.cpp".toList
      else if (env.lookPath "/opt/homebrew/bin/whisper.cpp".toList).isSome then
        "/opt/homebrew/bin/whisper.cpp".toList
      else [] := by
  unfold findWhisperExecutable
  simp only [localPaths, systemPaths, firstPassing]
  split_ifs <;> rfl

/-- The loop of `findPython`, candidate by candidate. -/
theorem findPython_chain (env : Env) :
    findPython env =
      if (env.lookPath "python3".toList).isSome && env.importsWhisper "python3".toList then
        "python3".toList
      else if (env.lookPath "python".toList).isSome && env.importsWhisper "python".toList then
        "python".toList
      else [] := by
  unfold findPython
  simp only [possiblePaths, firstPassing]
  split_ifs <;> rfl

/-- The last step of `transcribeAudio`: the Python adapter or the error. -/
theorem python_step (env : Env) (audioFile : GoString) :
    (if findPython env ≠ [] then Outcome.pythonWhisper audioFile (findPython env)
      else Outcome.noBackendError) =
    if (env.lookPath "python3".toList).isSome && env.importsWhisper "python3".toList then
      Outcome.pythonWhisper audioFile "python3".toList
    else if (env.lookPath "python".toList).isSome && env.importsWhisper "python".toList then
      Outcome.pythonWhisper audioFile "python".toList
    else Outcome.noBackendError := by
  rw [findPython_chain]
  split_ifs with h1 h2 h3 h4 h5
  · rfl
  · exact absurd (by decide) h2
  · rfl
  · exact absurd (by decide) h4
  · exact absurd rfl h5
  · rfl

/-- The second step of `transcribeAudio`: the `whisper` command, when the path
found for it is not empty. -/
theorem whisper_step (env : Env) (audioFile : GoString) (rest : Outcome) :
    (if findSystemWhisper env ≠ [] then Outcome.systemWhisper audioFile (findSystemWhisper env)
      else rest) =
    match (env.lookPath "whisper".toList).filter (fun p => p ≠ []) with
    | some p => Outcome.systemWhisper audioFile p
    | none => rest := by
  unfold findSystemWhisper
  cases hw : env.lookPath "whisper".toList with
  | none => simp [Option.filter]
  | some w =>
    by_cases hwe : w = []
    · simp [Option.filter, hwe]
    · simp [Option.filter, hwe]

/-- The first step of `transcribeAudio`: the native engine at the first of its
seven candidates that resolves. -/
theorem native_step (env : Env) (audioFile : GoString) (rest : Outcome) :
    (if findWhisperExecutable env ≠ [] then
        Outcome.whisperCpp audioFile (findWhisperExecutable env)
      else rest) =
    if env.stat "./whisper.cpp/build/bin/whisper-cli".toList then
      Outcome.whisperCpp audioFile "./whisper.cpp/build/bin/whisper-cli".toList
    else if env.stat "./whisper.cpp/build/bin/main".toList then
      Outcome.whisperCpp audioFile "./whisper.cpp/build/bin/main".toList
    else if env.stat "./whisper.cpp/main".toList then
      Outcome.whisperCpp audioFile "./whisper.cpp/main".toList
    else if (env.lookPath "whisper.cpp".toList).isSome then
      Outcome.whisperCpp audioFile "whisper.cpp".toList
    else if (env.lookPath "whisper-cli".toList).isSome then
      Outcome.whisperCpp audioFile "whisper-cli".toList
    else if (env.lookPath "/usr/local/bin/whisper.cpp".toList).isSome then
      Outcome.whisperCpp audioFile "/usr/local/bin/whisper.cpp".toList
    else if (env.lookPath "/opt/homebrew/bin/whisper.cpp".toList).isSome then
      Outcome.whisperCpp audioFile "/opt/homebrew/bin/whisper.cpp".toList
    else rest := by
  rw [findWhisperExecutable_chain]
  split_ifs
  all_goals first
    | rfl
    | (exfalso; rename_i h; exact h (by decide))

/-- With demo mode off, `transcribeAudio` selects as the specification does. -/
theorem transcribeAudio_eq_specSelect (env : Env) (audioFile : GoString) :
    transcribeAudio false env audioFile = specSelect env audioFile := by
  unfold transcribeAudio specSelect
  simp only [Bool.false_eq_true, if_false]
  rw [python_step, whisper_step, native_step]

/-! ## The claims -/

/-- Claim C1. For every sequence of Segments, the text `generateSRT` writes is the
concatenation, in input order, of one block per Segment, block `k` (counted
from 1) being the decimal index `k`, a line feed, `formatTime` of the start,
` --> `, `formatTime` of the end, a line feed, the text stripped of surrounding
white space, a line feed and a blank line: the indices depend on the position
only. For `[(0.0, 3.5, "a"), (3.5, 7.2, "b")]` these are the blocks 1 and 2. -/
theorem C1_generateSRT_blocks (impl : F64 → Int) (segments : List Segment) :
    generateSRT impl segments = specBlocksFrom impl 0 segments
    ∧ generateSRT impl
        [ { Start := F64.ofDecimal 0 1, End := F64.ofDecimal 35 10, Text := "a".toList },
          { Start := F64.ofDecimal 35 10, End := F64.ofDecimal 72 10, Text := "b".toList } ]
      = "1\n00:00:00,000 --> 00:00:03,500\na\n\n2\n00:00:03,500 --> 00:00:07,200\nb\n\n".toList := by
  refine ⟨writeSRTFile_entriesFrom impl segments 0, ?_⟩
  rw [show generateSRT impl _ = specBlocksFrom impl 0 _ from writeSRTFile_entriesFrom impl _ 0]
  obtain ⟨h0, h1, h2, -⟩ := demo_codes impl
  simp only [specBlocksFrom, specBlock, h0, h1, h2]
  decide

/-- Counterexample to C2 as stated: a complete block whose text line has 65536
bytes makes the scanner stop with `bufio.ErrTooLong`; `parseSRTFile` returns
the error and no Segment. -/
theorem C2_counterexample :
    parseSRTFile (some (renderBlocks [longBlock])) = ([], some ParseError.tooLong) := by
  have e : renderBlocks [longBlock] = longBlock.render ++ [] := by
    simp [renderBlocks]
  rw [e]
  exact parse_longBlock []

/-- Claim C2, amended. For every input made of `n` complete blocks (an index line
of digits, a line `HH:MM:SS,mmm --> HH:MM:SS,mmm`, one text line, a blank line),
each line shorter than the 65536 bytes of the scanner's buffer, `parseSRTFile`
returns without error exactly `n` Segments in file order, the `k`-th with
`Start` the float64 `h*3600 + m*60 + s + ms/1000` of the first time code (less
than a nanosecond from the exact value), `End` that of the second, and `Text`
the text line stripped of surrounding white space; index lines and blank lines
produce nothing. -/
theorem C2_parse_complete_blocks (bs : List Block) (hfit : ∀ b ∈ bs, b.Fits) :
    parseSRTFile (some (renderBlocks bs)) = (bs.map Block.segment, none)
    ∧ ∀ b ∈ bs, b.segment.Text = TrimSpace b.text
      ∧ |F64.toRat b.segment.Start
          - (((b.start.hours * 3600 + b.start.minutes * 60 + b.start.seconds : Nat) : ℚ)
            + (b.start.millis : ℚ) / 1000)| < 1 / 1000000000
      ∧ |F64.toRat b.segment.End
          - (((b.stop.hours * 3600 + b.stop.minutes * 60 + b.stop.seconds : Nat) : ℚ)
            + (b.stop.millis : ℚ) / 1000)| < 1 / 1000000000 := by
  constructor
  · obtain ⟨h1, h2⟩ := parse_renderBlocks_append [] bs hfit
    rw [List.append_nil] at h1 h2
    unfold parseSRTFile
    simp only [h1, h2, scanLines_nil, parseLines, List.append_nil, Bool.false_eq_true, if_false]
  · intro b _
    exact ⟨rfl, b.start.value_close.2, b.stop.value_close.2⟩

/-- The amended C2 on the two blocks of `sampleBlocks`. -/
theorem C2_parse_complete_blocks_witness :
    (∀ b ∈ sampleBlocks, b.Fits)
    ∧ parseSRTFile (some (renderBlocks sampleBlocks)) = (sampleBlocks.map Block.segment, none)
    ∧ ∀ b ∈ sampleBlocks, b.segment.Text = TrimSpace b.text
      ∧ |F64.toRat b.segment.Start
          - (((b.start.hours * 3600 + b.start.minutes * 60 + b.start.seconds : Nat) : ℚ)
            + (b.start.millis : ℚ) / 1000)| < 1 / 1000000000
      ∧ |F64.toRat b.segment.End
          - (((b.stop.hours * 3600 + b.stop.minutes * 60 + b.stop.seconds : Nat) : ℚ)
            + (b.stop.millis : ℚ) / 1000)| < 1 / 1000000000 :=
  ⟨sampleBlocks_fit, C2_parse_complete_blocks sampleBlocks sampleBlocks_fit⟩

set_option maxRecDepth 100000 in
/-- Claim C3, which the code departs from. `formatTime` takes the whole seconds from
the float64 `d.Seconds()`, which rounds: for the duration of 16777216 s and
999999999 ns it prints the seconds field of the next second, `17`, next to the
milliseconds `999`, where the whole seconds of the duration give `16`. The same
happens on the duration `generateSRT` derives from a start of 8589934593.0 s. -/
theorem C3_formatTime_rounds_seconds_up (impl : F64 → Int) :
    formatTime impl 16777216999999999 = "4660:20:17,999".toList
    ∧ fmtInt 2 ((16777216999999999 / 1000000000 % 60 : Nat) : Int) = "16".toList
    ∧ toDuration impl (F64.ofInt 8589934593) = 8589934592999999488
    ∧ formatTime impl 8589934592999999488 = "2386092:56:33,999".toList
    ∧ fmtInt 2 ((8589934592999999488 / 1000000000 % 60 : Nat) : Int) = "32".toList := by
  rw [formatTime_congr impl F64.amd64 16777216999999999 (by decide!),
    toDuration_congr impl F64.amd64 (F64.ofInt 8589934593) (by decide!),
    formatTime_congr impl F64.amd64 8589934592999999488 (by decide!)]
  decide!

set_option maxRecDepth 100000 in
/-- Counterexample to C4 as stated: the float64 `128.004` renders as
`00:02:08,003`, which decodes to the float64 `128.003`, and the two differ by
more than one millisecond. Far above the range of the amended claim, the
float64 `8589934593.0` renders as `2386092:56:33,999`, which decodes to a value
more than half a second away. -/
theorem C4_counterexample :
    formatTime F64.amd64 (toDuration F64.amd64 (F64.ofDecimal 128004 1000))
      = "00:02:08,003".toList
    ∧ decodeCode (formatTime F64.amd64 (toDuration F64.amd64 (F64.ofDecimal 128004 1000)))
      = F64.ofDecimal 128003 1000
    ∧ 1 / 1000 < F64.toRat (F64.ofDecimal 128004 1000)
        - F64.toRat (decodeCode
            (formatTime F64.amd64 (toDuration F64.amd64 (F64.ofDecimal 128004 1000))))
    ∧ 1 / 2 < F64.toRat (decodeCode
            (formatTime F64.amd64 (toDuration F64.amd64 (F64.ofInt 8589934593))))
        - F64.toRat (F64.ofInt 8589934593) := by
  have h1 : formatTime F64.amd64 (toDuration F64.amd64 (F64.ofDecimal 128004 1000))
      = "00:02:08,003".toList := by decide!
  have h2 : decodeCode (formatTime F64.amd64 (toDuration F64.amd64 (F64.ofDecimal 128004 1000)))
      = F64.ofDecimal 128003 1000 := by decide!
  refine ⟨h1, h2, ?_, ?_⟩
  · rw [h2]
    exact_mod_cast toRat_sub_gt _ _ 1000 (by decide!)
  · exact_mod_cast toRat_sub_gt _ _ 2 (by decide!)

/-- Claim C4, amended. For every non-negative float64 `x` below `2^23` seconds
(about 97 days), rendering `x` as a time code, splitting the code into its four
fields and passing them to `parseTimeToSeconds` gives a non-negative finite
value that differs from `x` by less than 1 millisecond and 1 nanosecond. -/
theorem C4_roundtrip_within (impl : F64 → Int) (x : F64) (hx : F64.IsNonnegBelow (2 ^ 23) x) :
    F64.IsNonnegFinite (decodeCode (formatTime impl (toDuration impl x)))
    ∧ |F64.toRat (decodeCode (formatTime impl (toDuration impl x))) - F64.toRat x|
      < 1 / 1000 + 1 / 1000000000 := by
  cases x with
  | fin s k =>
    obtain ⟨hs, hg, hk⟩ := hx
    rcases hs with rfl | rfl
    · exact roundtrip_within_fin impl k hg hk
    · have h := roundtrip_within_fin impl 0 hg hk
      rw [toDuration_zero impl false, toRat_zero false] at h
      rw [toDuration_zero impl s, toRat_zero s]
      exact h
  | inf s => exact absurd hx (by simp [F64.IsNonnegBelow])
  | nan => exact absurd hx (by simp [F64.IsNonnegBelow])

/-- The amended C4 at the float64 `128.004`, which is `4503740364858851 * 2^-45`. -/
theorem C4_roundtrip_within_witness :
    F64.IsNonnegBelow (2 ^ 23) (F64.fin false (4503740364858851 * 2 ^ 1029))
    ∧ F64.IsNonnegFinite (decodeCode (formatTime F64.amd64
        (toDuration F64.amd64 (F64.fin false (4503740364858851 * 2 ^ 1029)))))
    ∧ |F64.toRat (decodeCode (formatTime F64.amd64
          (toDuration F64.amd64 (F64.fin false (4503740364858851 * 2 ^ 1029)))))
        - F64.toRat (F64.fin false (4503740364858851 * 2 ^ 1029))|
      < 1 / 1000 + 1 / 1000000000 :=
  ⟨isNonnegBelow_of _ 1029 _ (by norm_num) (by norm_num) (by norm_num),
    C4_roundtrip_within F64.amd64 _
      (isNonnegBelow_of _ 1029 _ (by norm_num) (by norm_num) (by norm_num))⟩

set_option maxRecDepth 100000 in
/-- Claim C5, which the code departs from. The time code `00:00:01,001` decodes to
the float64 nearest to 1.001, which is below 1.001; its product with `1e9`
rounds to a float64 below 1000999999.99999989 and the conversion to a duration
truncates it to 1000999999 ns, so the time code written is `00:00:01,000`. A
file with the line `00:00:01,001 --> 00:00:04,004` is written back with the
line `00:00:01,000 --> 00:00:04,003`. -/
theorem C5_decode_render_loses_a_millisecond (impl : F64 → Int) :
    toDuration impl (parseTimeToSeconds "00".toList "00".toList "01".toList "001".toList)
      = 1000999999
    ∧ formatTime impl
        (toDuration impl (parseTimeToSeconds "00".toList "00".toList "01".toList "001".toList))
      = "00:00:01,000".toList
    ∧ parseSRTFile (some "1\n00:00:01,001 --> 00:00:04,004\nhi\n\n".toList)
      = ([ { Start := parseTimeToSeconds "00".toList "00".toList "01".toList "001".toList,
             End := parseTimeToSeconds "00".toList "00".toList "04".toList "004".toList,
             Text := "hi".toList } ], none)
    ∧ generateSRT impl (parseSRTFile (some "1\n00:00:01,001 --> 00:00:04,004\nhi\n\n".toList)).1
      = "1\n00:00:01,000 --> 00:00:04,003\nhi\n\n".toList := by
  have e1 : toDuration impl
      (parseTimeToSeconds "00".toList "00".toList "01".toList "001".toList) = 1000999999 := by
    rw [toDuration_congr impl F64.amd64 _ (by decide!)]
    decide!
  have e2 : toDuration impl
      (parseTimeToSeconds "00".toList "00".toList "04".toList "004".toList) = 4003999999 := by
    rw [toDuration_congr impl F64.amd64 _ (by decide!)]
    decide!
  have e3 : formatTime impl 1000999999 = "00:00:01,000".toList := by
    rw [formatTime_congr impl F64.amd64 _ (by decide!)]
    decide!
  have e4 : formatTime impl 4003999999 = "00:00:04,003".toList := by
    rw [formatTime_congr impl F64.amd64 _ (by decide!)]
    decide!
  have e5 : parseSRTFile (some "1\n00:00:01,001 --> 00:00:04,004\nhi\n\n".toList)
      = ([ { Start := parseTimeToSeconds "00".toList "00".toList "01".toList "001".toList,
             End := parseTimeToSeconds "00".toList "00".toList "04".toList "004".toList,
             Text := "hi".toList } ], none) := by
    decide!
  refine ⟨e1, by rw [e1]; exact e3, e5, ?_⟩
  rw [e5]
  simp only [generateSRT, entriesFrom, writeSRTFile, entryBlock, e1, e2, e3, e4]
  decide

/-- Claim C6. In demo mode, for every input path, `transcribeAudio` returns the
demo Segments and `generateSRT` writes from them exactly five blocks, indexed 1
to 5, with the time codes 0.0-3.5, 3.5-7.2, 7.2-11.8, 11.8-15.3 and 15.3-18.0
seconds; the text of the first block contains the base name of the input with
its extension stripped (`clip` for `clip.mp3`), the other four texts are fixed. -/
theorem C6_demo_output (impl : F64 → Int) (env : Env) (audioFile : GoString) :
    transcribeAudio true env audioFile = Outcome.segments (generateDemoTranscription audioFile)
    ∧ generateSRT impl (generateDemoTranscription audioFile)
      = "1\n00:00:00,000 --> 00:00:03,500\n欢迎收听 ".toList
        ++ TrimSuffix (Base audioFile) (Ext audioFile)
        ++ (" 音频文件的转录结果。\n\n"
          ++ "2\n00:00:03,500 --> 00:00:07,200\n这是一个演示模式生成的字幕文件。\n\n"
          ++ "3\n00:00:07,200 --> 00:00:11,800\n在实际使用中，这里会显示真正的语音识别结果。\n\n"
          ++ "4\n00:00:11,800 --> 00:00:15,300\n请安装whisper.cpp或Python whisper来获得真实的转录功能。\n\n"
          ++ "5\n00:00:15,300 --> 00:00:18,000\n谢谢使用我们的音频转字幕工具！\n\n").toList
    ∧ TrimSuffix (Base audioFile) (Ext (Base audioFile))
      <:+: "欢迎收听 ".toList ++ TrimSuffix (Base audioFile) (Ext audioFile)
        ++ " 音频文件的转录结果。".toList
    ∧ TrimSuffix (Base "clip.mp3".toList) (Ext "clip.mp3".toList) = "clip".toList := by
  refine ⟨by simp [transcribeAudio], ?_, ?_, by decide⟩
  · rw [show generateSRT impl _ = specBlocksFrom impl 0 _ from writeSRTFile_entriesFrom impl _ 0]
    obtain ⟨h0, h1, h2, h3, h4, h5⟩ := demo_codes impl
    simp only [generateDemoTranscription, specBlocksFrom, specBlock]
    generalize TrimSuffix (Base audioFile) (Ext audioFile) = name
    have ht : TrimSpace ("欢迎收听 ".toList ++ name ++ " 音频文件的转录结果。".toList)
        = "欢迎收听 ".toList ++ name ++ " 音频文件的转录结果。".toList := by
      have e : "欢迎收听 ".toList ++ name ++ " 音频文件的转录结果。".toList
          = '欢' :: (("迎收听 ".toList ++ name ++ " 音频文件的转录结果".toList) ++ ['。']) := by
        simp
      rw [e]
      exact TrimSpace_ends _ _ _ (by decide) (by decide)
    have t2 : TrimSpace "这是一个演示模式生成的字幕文件。".toList
        = "这是一个演示模式生成的字幕文件。".toList := by decide
    have t3 : TrimSpace "在实际使用中，这里会显示真正的语音识别结果。".toList
        = "在实际使用中，这里会显示真正的语音识别结果。".toList := by decide
    have t4 : TrimSpace "请安装whisper.cpp或Python whisper来获得真实的转录功能。".toList
        = "请安装whisper.cpp或Python whisper来获得真实的转录功能。".toList := by decide
    have t5 : TrimSpace "谢谢使用我们的音频转字幕工具！".toList
        = "谢谢使用我们的音频转字幕工具！".toList := by decide
    have d1 : decimal (0 + 1) = "1".toList := by decide
    have d2 : decimal (0 + 1 + 1) = "2".toList := by decide
    have d3 : decimal (0 + 1 + 1 + 1) = "3".toList := by decide
    have d4 : decimal (0 + 1 + 1 + 1 + 1) = "4".toList := by decide
    have d5 : decimal (0 + 1 + 1 + 1 + 1 + 1) = "5".toList := by decide
    rw [h0, h1, h2, h3, h4, h5, ht, t2, t3, t4, t5, d1, d2, d3, d4, d5]
    simp
  · obtain ⟨rest, hrest⟩ := stripped_base_prefix audioFile
    exact ⟨"欢迎收听 ".toList, rest ++ " 音频文件的转录结果。".toList, by
      rw [← hrest]
      simp [List.append_assoc]⟩

/-- Claim C7. With demo mode off, `transcribeAudio` hands the audio file to
exactly one adapter, that of the first candidate whose probe resolves, in the
order: the local paths `./whisper.cpp/build/bin/whisper-cli`,
`./whisper.cpp/build/bin/main`, `./whisper.cpp/main`, then the system names
`whisper.cpp`, `whisper-cli`, `/usr/local/bin/whisper.cpp`,
`/opt/homebrew/bin/whisper.cpp` (native engine), then the `whisper` command,
then `python3` before `python`, each found on the PATH and passing the check of
loading `whisper`. When no probe resolves the three probes return the empty
string and no adapter is invoked. The instances: with every probe succeeding
the first local path wins; with nothing on disk and every name on the PATH,
the first system name; the last local path wins over every system name; `whisper`
wins over both interpreters; `python3` wins over `python`; `python` is taken
when `python3` is found but cannot load `whisper`; an interpreter that is found
but cannot load `whisper` is no backend. -/
theorem C7_backend_priority (env : Env) (audioFile : GoString) :
    transcribeAudio false env audioFile = specSelect env audioFile
    ∧ (env.stat "./whisper.cpp/build/bin/whisper-cli".toList = false
        ∧ env.stat "./whisper.cpp/build/bin/main".toList = false
        ∧ env.stat "./whisper.cpp/main".toList = false
        ∧ env.lookPath "whisper.cpp".toList = none
        ∧ env.lookPath "whisper-cli".toList = none
        ∧ env.lookPath "/usr/local/bin/whisper.cpp".toList = none
        ∧ env.lookPath "/opt/homebrew/bin/whisper.cpp".toList = none
        ∧ env.lookPath "whisper".toList = none
        ∧ (env.lookPath "python3".toList = none ∨ env.importsWhisper "python3".toList = false)
        ∧ (env.lookPath "python".toList = none ∨ env.importsWhisper "python".toList = false) →
      findWhisperExecutable env = [] ∧ findSystemWhisper env = [] ∧ findPython env = []
        ∧ transcribeAudio false env audioFile = Outcome.noBackendError)
    ∧ transcribeAudio false
        (probeEnv
          ["./whisper.cpp/build/bin/whisper-cli".toList, "./whisper.cpp/build/bin/main".toList,
            "./whisper.cpp/main".toList]
          ["whisper.cpp".toList, "whisper-cli".toList, "/usr/local/bin/whisper.cpp".toList,
            "/opt/homebrew/bin/whisper.cpp".toList, "whisper".toList, "python3".toList,
            "python".toList]
          ["python3".toList, "python".toList]) audioFile
      = Outcome.whisperCpp audioFile "./whisper.cpp/build/bin/whisper-cli".toList
    ∧ transcribeAudio false
        (probeEnv []
          ["whisper.cpp".toList, "whisper-cli".toList, "/usr/local/bin/whisper.cpp".toList,
            "/opt/homebrew/bin/whisper.cpp".toList, "whisper".toList, "python3".toList,
            "python".toList]
          ["python3".toList, "python".toList]) audioFile
      = Outcome.whisperCpp audioFile "whisper.cpp".toList
    ∧ transcribeAudio false
        (probeEnv ["./whisper.cpp/main".toList]
          ["whisper.cpp".toList, "whisper-cli".toList, "/usr/local/bin/whisper.cpp".toList,
            "/opt/homebrew/bin/whisper.cpp".toList, "whisper".toList, "python3".toList,
            "python".toList]
          ["python3".toList, "python".toList]) audioFile
      = Outcome.whisperCpp audioFile "./whisper.cpp/main".toList
    ∧ transcribeAudio false
        (probeEnv [] ["whisper".toList, "python3".toList, "python".toList]
          ["python3".toList, "python".toList]) audioFile
      = Outcome.systemWhisper audioFile "/usr/bin/whisper".toList
    ∧ transcribeAudio false
        (probeEnv [] ["python3".toList, "python".toList] ["python3".toList, "python".toList])
        audioFile
      = Outcome.pythonWhisper audioFile "python3".toList
    ∧ transcribeAudio false
        (probeEnv [] ["python3".toList, "python".toList] ["python".toList]) audioFile
      = Outcome.pythonWhisper audioFile "python".toList
    ∧ transcribeAudio false (probeEnv [] ["python3".toList] ["python".toList]) audioFile
      = Outcome.noBackendError := by
  refine ⟨transcribeAudio_eq_specSelect env audioFile, ?_, ?_, ?_, ?_, ?_, ?_, ?_, ?_⟩
  · rintro ⟨a1, a2, a3, b1, b2, b3, b4, hw, hp3, hp⟩
    have e1 : findWhisperExecutable env = [] := by
      rw [findWhisperExecutable_chain, a1, a2, a3, b1, b2, b3, b4]
      rfl
    have e2 : findSystemWhisper env = [] := by
      unfold findSystemWhisper
      rw [hw]
    have c3 : ((env.lookPath "python3".toList).isSome && env.importsWhisper "python3".toList)
        = false := by
      rcases hp3 with h | h
      · rw [h]
        rfl
      · rw [h]
        exact Bool.and_false _
    have c2 : ((env.lookPath "python".toList).isSome && env.importsWhisper "python".toList)
        = false := by
      rcases hp with h | h
      · rw [h]
        rfl
      · rw [h]
        exact Bool.and_false _
    have e3 : findPython env = [] := by
      rw [findPython_chain, c3, c2]
      rfl
    refine ⟨e1, e2, e3, ?_⟩
    unfold transcribeAudio
    simp [e1, e2, e3]
  all_goals rfl

/-- Counterexample to C8 as stated: with demo mode off and no probe resolving,
`transcribeAudio` fails instead of returning the demo Segments. -/
theorem C8_counterexample :
    transcribeAudio false bareEnv "x.wav".toList = Outcome.noBackendError
    ∧ transcribeAudio false bareEnv "x.wav".toList
      ≠ Outcome.segments (generateDemoTranscription "x.wav".toList) := by
  have h : transcribeAudio false bareEnv "x.wav".toList = Outcome.noBackendError := by
    simp [transcribeAudio, findWhisperExecutable, findSystemWhisper, findPython, bareEnv,
      firstPassing, localPaths, systemPaths, possiblePaths]
  refine ⟨h, ?_⟩
  rw [h]
  exact fun hne => Outcome.noConfusion hne

/-- Claim C8, amended. With demo mode off, when none of the three probes resolves
`transcribeAudio` fails with the error that no Whisper tool was found and
returns no Segments; it returns Segments itself (the demo ones) exactly when
demo mode is set. -/
theorem C8_no_backend_fails (env : Env) (audioFile : GoString)
    (h1 : findWhisperExecutable env = []) (h2 : findSystemWhisper env = [])
    (h3 : findPython env = []) :
    transcribeAudio false env audioFile = Outcome.noBackendError
    ∧ (∀ demoMode segs, transcribeAudio demoMode env audioFile = Outcome.segments segs →
        demoMode = true ∧ segs = generateDemoTranscription audioFile) := by
  have h : transcribeAudio false env audioFile = Outcome.noBackendError := by
    unfold transcribeAudio
    simp [h1, h2, h3]
  refine ⟨h, ?_⟩
  intro demoMode segs hs
  cases demoMode with
  | false =>
    rw [h] at hs
    exact Outcome.noConfusion hs
  | true =>
    simp only [transcribeAudio, if_true] at hs
    injection hs with hs
    exact ⟨rfl, hs.symm⟩

/-- The amended C8 in the environment where no probe succeeds. -/
theorem C8_no_backend_fails_witness :
    findWhisperExecutable bareEnv = [] ∧ findSystemWhisper bareEnv = [] ∧ findPython bareEnv = []
    ∧ transcribeAudio false bareEnv "x.wav".toList = Outcome.noBackendError
    ∧ (∀ demoMode segs, transcribeAudio demoMode bareEnv "x.wav".toList = Outcome.segments segs →
        demoMode = true ∧ segs = generateDemoTranscription "x.wav".toList) :=
  ⟨by decide, by decide, by decide,
    C8_no_backend_fails bareEnv "x.wav".toList (by decide) (by decide) (by decide)⟩

/-- Counterexample to C9 as stated: when the text line of the complete block
has 65536 bytes, the scanner stops with `bufio.ErrTooLong` before the trailing
lines; `parseSRTFile` returns the error and not the Segment of the block. -/
theorem C9_counterexample :
    parseSRTFile (some (renderBlocks [longBlock]
        ++ (trailingBlock.indexLine ++ '\n' :: trailingBlock.stampLine)))
      = ([], some ParseError.tooLong) := by
  have e : renderBlocks [longBlock] ++ (trailingBlock.indexLine ++ '\n' :: trailingBlock.stampLine)
      = longBlock.render ++ (trailingBlock.indexLine ++ '\n' :: trailingBlock.stampLine) := by
    simp [renderBlocks]
  rw [e]
  exact parse_longBlock _

/-- Claim C9, amended. For every input made of `n` complete well-formed blocks,
each line shorter than the 65536 bytes of the scanner's buffer, followed by a
trailing index line and a line of two time codes with nothing after it (the
end of the input, with or without a last line feed), `parseSRTFile` returns
without error exactly the `n` Segments of the complete blocks: the trailing
line of time codes yields no Segment. -/
theorem C9_trailing_stamp_line (bs : List Block) (t : Block) (hfit : ∀ b ∈ bs, b.Fits)
    (ht : t.index.length < MaxScanTokenSize) :
    parseSRTFile (some (renderBlocks bs ++ (t.indexLine ++ '\n' :: t.stampLine)))
        = (bs.map Block.segment, none)
      ∧ parseSRTFile (some (renderBlocks bs ++ (t.indexLine ++ '\n' :: (t.stampLine ++ ['\n']))))
        = (bs.map Block.segment, none) := by
  obtain ⟨⟨a1, a2⟩, b1, b2⟩ := parse_trailing_head t ht
  constructor
  · obtain ⟨h1, h2⟩ := parse_renderBlocks_append (t.indexLine ++ '\n' :: t.stampLine) bs hfit
    unfold parseSRTFile
    simp only [h1, h2, a1, a2, List.append_nil, Bool.false_eq_true, if_false]
  · obtain ⟨h1, h2⟩ :=
      parse_renderBlocks_append (t.indexLine ++ '\n' :: (t.stampLine ++ ['\n'])) bs hfit
    unfold parseSRTFile
    simp only [h1, h2, b1, b2, List.append_nil, Bool.false_eq_true, if_false]

/-- The amended C9 on the two blocks of `sampleBlocks` followed by the two lines
of `trailingBlock`. -/
theorem C9_trailing_stamp_line_witness :
    (∀ b ∈ sampleBlocks, b.Fits) ∧ trailingBlock.index.length < MaxScanTokenSize
    ∧ parseSRTFile (some (renderBlocks sampleBlocks
          ++ (trailingBlock.indexLine ++ '\n' :: trailingBlock.stampLine)))
        = (sampleBlocks.map Block.segment, none)
    ∧ parseSRTFile (some (renderBlocks sampleBlocks
          ++ (trailingBlock.indexLine ++ '\n' :: (trailingBlock.stampLine ++ ['\n']))))
        = (sampleBlocks.map Block.segment, none) :=
  ⟨sampleBlocks_fit, by decide,
    C9_trailing_stamp_line sampleBlocks trailingBlock sampleBlocks_fit (by decide)⟩

set_option maxRecDepth 100000 in
/-- Counterexample to C10 as stated: 0.0006 s renders as `00:00:00,000`, the
sub-second remainder truncated, not as `00:00:00,001`. And the claim needs a
bound on `x`: `1e10` seconds, whose whole seconds are 2777777 h 46 min 40 s, is
past the range of `time.Duration`, and with the conversion of amd64 its time
code is `-2562047:-47:-16,-854`. -/
theorem C10_counterexample :
    formatTime F64.amd64 (toDuration F64.amd64 (F64.ofDecimal 6 10000)) = "00:00:00,000".toList
    ∧ formatTime F64.amd64 (toDuration F64.amd64 (F64.ofDecimal 6 10000))
      ≠ "00:00:00,001".toList
    ∧ (F64.ofInt 10000000000).wholePart = 10000000000
    ∧ formatTime F64.amd64 (toDuration F64.amd64 (F64.ofInt 10000000000))
      = "-2562047:-47:-16,-854".toList := by
  decide!

/-- Claim C10, amended. For every non-negative float64 `x` below `2^23` seconds,
with `d` the duration `generateSRT` derives from it (the float64 product
`x * 1e9` truncated to whole nanoseconds): the hours, minutes and seconds
fields of the time code come from `x` truncated to whole seconds, which are the
whole seconds of `d`, and the millisecond field is the sub-second remainder of
`d` truncated, not rounded, to whole milliseconds. -/
theorem C10_fields_truncate (impl : F64 → Int) (x : F64) (hx : F64.IsNonnegBelow (2 ^ 23) x) :
    ∃ d : Nat, toDuration impl x = (d : Int)
      ∧ d / 1000000000 = x.wholePart
      ∧ formatTime impl (toDuration impl x)
        = fmtInt 2 ((x.wholePart / 3600 : Nat) : Int)
          ++ ':' :: fmtInt 2 ((x.wholePart % 3600 / 60 : Nat) : Int)
          ++ ':' :: fmtInt 2 ((x.wholePart % 60 : Nat) : Int)
          ++ ',' :: fmtInt 3 ((d % 1000000000 / 1000000 : Nat) : Int) := by
  cases x with
  | fin s k =>
    obtain ⟨hs, hg, hk⟩ := hx
    rcases hs with rfl | rfl
    · exact fields_truncate_fin impl k hg hk
    · have h := fields_truncate_fin impl 0 hg hk
      rw [toDuration_zero impl false] at h
      rw [toDuration_zero impl s]
      exact h
  | inf s => exact absurd hx (by simp [F64.IsNonnegBelow])
  | nan => exact absurd hx (by simp [F64.IsNonnegBelow])

/-- The amended C10 at the float64 `0.0006`, which is `5534023222112865 * 2^-63`. -/
theorem C10_fields_truncate_witness :
    F64.IsNonnegBelow (2 ^ 23) (F64.fin false (5534023222112865 * 2 ^ 1011))
    ∧ ∃ d : Nat, toDuration F64.amd64 (F64.fin false (5534023222112865 * 2 ^ 1011)) = (d : Int)
      ∧ d / 1000000000 = (F64.fin false (5534023222112865 * 2 ^ 1011)).wholePart
      ∧ formatTime F64.amd64 (toDuration F64.amd64 (F64.fin false (5534023222112865 * 2 ^ 1011)))
        = fmtInt 2 (((F64.fin false (5534023222112865 * 2 ^ 1011)).wholePart / 3600 : Nat) : Int)
          ++ ':' :: fmtInt 2
            (((F64.fin false (5534023222112865 * 2 ^ 1011)).wholePart % 3600 / 60 : Nat) : Int)
          ++ ':' :: fmtInt 2
            (((F64.fin false (5534023222112865 * 2 ^ 1011)).wholePart % 60 : Nat) : Int)
          ++ ',' :: fmtInt 3 ((d % 1000000000 / 1000000 : Nat) : Int) :=
  ⟨isNonnegBelow_of _ 1011 _ (by norm_num) (by norm_num) (by norm_num),
    C10_fields_truncate F64.amd64 _
      (isNonnegBelow_of _ 1011 _ (by norm_num) (by norm_num) (by norm_num))⟩

end AudioToSrt
